import Mathlib

/-!
Jakt runtime: `Dictionary` and `DictionaryIterator`.

A shallow embedding of `runtime/Builtins/Dictionary.h`.

The header only wraps collaborators that live in other headers (`HashMap`,
`Array`, `RefCounted`, `NonnullRefPtr`, the allocator behind `new (nothrow)`).
Those are given small executable models, each marked as modelled from the
specification.  The members of `Dictionary` and `DictionaryIterator` themselves
are transcribed from the header statement by statement.

State is explicit: a `World` holds every `DictionaryStorage` object (indexed by
address) together with the allocator, and each member function takes the world
and returns the new one.
-/

namespace JaktInternal

/-! ## Errors -/

/-- The single error kind surfaced by the container: an allocation failure. -/
inductive Error where
  | ENOMEM
  deriving DecidableEq, Repr

/-- The result type `ErrorOr<T>`: either a value or an error. -/
inductive ErrorOr (α : Type) where
  | ok (value : α)
  | error (e : Error)
  deriving DecidableEq, Repr

/-- Whether an `ErrorOr` holds an error. -/
def ErrorOr.is_error {α : Type} : ErrorOr α → Bool
  | .ok _ => false
  | .error _ => true

/-! ## The allocator -/

/-- Modelled from the spec: the injectable allocation-failure collaborator.
`outcomes i` tells whether the `i`-th allocation request made during the run is
satisfied; `requests` counts the requests made so far.  Every sequence of
successes and failures is some `outcomes`. -/
structure Allocator where
  outcomes : Nat → Bool
  requests : Nat

/-- Whether the next allocation request is satisfied. -/
def Allocator.granted (a : Allocator) : Bool := a.outcomes a.requests

/-- The allocator after one more request has been made. -/
def Allocator.advance (a : Allocator) : Allocator :=
  { a with requests := a.requests + 1 }

/-! ## The `HashMap` collaborator -/

/-- Modelled from the spec: the external `Map` collaborator (`Jakt/HashMap.h`).
`buckets` lists the entries in iteration order; `capacity` is the number of
entries the table can hold without a further allocation. -/
structure HashMap (K V : Type) where
  buckets : List (K × V)
  capacity : Nat

/-- Modelled from the spec: the cursor type `HashMap<K, V>::IteratorType`.
`some i` points at the `i`-th entry in iteration order, `none` is the
past-the-end cursor. -/
abbrev HashMap.IteratorType := Option Nat

namespace HashMap

variable {K V : Type} [DecidableEq K]

/-- Modelled from the spec: a default-constructed map, without entries or storage. -/
def empty : HashMap K V := { buckets := [], capacity := 0 }

/-- Modelled from the spec: `size`, the number of entries. -/
def size (m : HashMap K V) : Nat := m.buckets.length

/-- Modelled from the spec: `is_empty`. -/
def is_empty (m : HashMap K V) : Bool := decide (m.size = 0)

/-- Modelled from the spec: `clear` empties the map. -/
def clear (_m : HashMap K V) : HashMap K V := empty

/-- Modelled from the spec: `contains`, the membership query. -/
def contains (m : HashMap K V) (key : K) : Bool :=
  m.buckets.any (fun e => decide (e.1 = key))

/-- Modelled from the spec: `get`, the by-value lookup; an absent key gives an
empty result. -/
def get (m : HashMap K V) (key : K) : Option V :=
  (m.buckets.find? (fun e => decide (e.1 = key))).map Prod.snd

/-- Modelled from the spec: `set` inserts or overwrites.  Overwriting keeps the
entry in place; a new key goes to the end of the iteration order.  Only the
insertion of a new key into a full table asks the allocator, and a refused
request leaves the map unmodified. -/
def set (m : HashMap K V) (key : K) (value : V) (a : Allocator) :
    ErrorOr Unit × HashMap K V × Allocator :=
  if m.contains key then
    (.ok (), { m with
      buckets := m.buckets.map (fun e => if e.1 = key then (key, value) else e) }, a)
  else if m.size < m.capacity then
    (.ok (), { m with buckets := m.buckets ++ [(key, value)] }, a)
  else if a.granted then
    (.ok (), { buckets := m.buckets ++ [(key, value)],
               capacity := max (m.size + 1) (2 * m.capacity) }, a.advance)
  else
    (.error .ENOMEM, m, a.advance)

/-- Modelled from the spec: `remove` deletes the entry of a key and tells whether
the key was present. -/
def remove (m : HashMap K V) (key : K) : Bool × HashMap K V :=
  if m.contains key then
    (true, { m with buckets := m.buckets.filter (fun e => !decide (e.1 = key)) })
  else
    (false, m)

/-- Modelled from the spec: `ensure_capacity` asks the allocator for room for
`capacity` entries; a refused request leaves the map unmodified. -/
def ensure_capacity (m : HashMap K V) (capacity : Nat) (a : Allocator) :
    ErrorOr Unit × HashMap K V × Allocator :=
  if a.granted then
    (.ok (), { m with capacity := max m.capacity capacity }, a.advance)
  else
    (.error .ENOMEM, m, a.advance)

/-- Modelled from the spec: `begin`, the cursor at the first entry, or the
past-the-end cursor when there is none. -/
def begin (m : HashMap K V) : HashMap.IteratorType :=
  if m.buckets.isEmpty then none else some 0

/-- Modelled from the spec: `end`, the past-the-end cursor. -/
def end_ (_m : HashMap K V) : HashMap.IteratorType := none

/-- Modelled from the spec: `operator*` of the cursor.  `none` when the cursor
does not point at an entry (dereferencing it is undefined). -/
def deref (m : HashMap K V) : HashMap.IteratorType → Option (K × V)
  | none => none
  | some i => m.buckets.get? i

/-- Modelled from the spec: `operator++` of the cursor: the next entry, or
past-the-end after the last one.  The past-the-end cursor stays where it is. -/
def advance (m : HashMap K V) : HashMap.IteratorType → HashMap.IteratorType
  | none => none
  | some i => if i + 1 < m.buckets.length then some (i + 1) else none

/-- The cursor that has passed the first `i` entries: at entry `i` when there is
one, past the end otherwise. -/
def cursor_at (m : HashMap K V) (i : Nat) : HashMap.IteratorType :=
  if i < m.buckets.length then some i else none

/-- The keys of the map in iteration order. -/
def key_list (m : HashMap K V) : List K := m.buckets.map Prod.fst

/-- The data invariant of the map: no key occurs in two entries. -/
def unique_keys (m : HashMap K V) : Prop := m.key_list.Nodup

end HashMap

/-! ## The `Array` collaborator -/

/-- Modelled from the spec: the result sequence type `Array<T>` of `keys()`
(`Builtins/Array.h`), a growable sequence with a reserved capacity. -/
structure Array (T : Type) where
  items : List T
  capacity : Nat
  deriving DecidableEq, Repr

namespace Array

variable {T : Type}

/-- Modelled from the spec: a default-constructed, empty sequence. -/
def empty : Array T := { items := [], capacity := 0 }

/-- Modelled from the spec: the number of elements. -/
def size (arr : Array T) : Nat := arr.items.length

/-- Modelled from the spec: `ensure_capacity` asks the allocator for room for
`capacity` elements. -/
def ensure_capacity (arr : Array T) (capacity : Nat) (a : Allocator) :
    ErrorOr Unit × Array T × Allocator :=
  if a.granted then
    (.ok (), { arr with capacity := max arr.capacity capacity }, a.advance)
  else
    (.error .ENOMEM, arr, a.advance)

/-- Modelled from the spec: `push` appends an element; it asks the allocator
only when the reserved capacity is used up. -/
def push (arr : Array T) (value : T) (a : Allocator) :
    ErrorOr Unit × Array T × Allocator :=
  if arr.size < arr.capacity then
    (.ok (), { arr with items := arr.items ++ [value] }, a)
  else if a.granted then
    (.ok (), { items := arr.items ++ [value],
               capacity := max (arr.size + 1) (2 * arr.capacity) }, a.advance)
  else
    (.error .ENOMEM, arr, a.advance)

end Array

/-! ## Storage objects and the world -/

/-- The struct `DictionaryStorage<K, V>`: the reference count inherited from
`RefCounted` and the one `HashMap`. -/
structure DictionaryStorage (K V : Type) where
  ref_count : Nat
  map : HashMap K V

/-- The program state: the storage object at every address, the next unused
address, and the allocator.  An address that holds no live object has
`ref_count = 0` and an empty map. -/
structure World (K V : Type) where
  heap : Nat → DictionaryStorage K V
  brk : Nat
  allocator : Allocator

namespace World

variable {K V : Type} [DecidableEq K]

/-- The initial state: no storage object exists. -/
def initial (outcomes : Nat → Bool) : World K V :=
  { heap := fun _ => { ref_count := 0, map := HashMap.empty },
    brk := 0,
    allocator := { outcomes := outcomes, requests := 0 } }

/-- Dereferencing a `NonnullRefPtr<Storage>`. -/
def deref (w : World K V) (p : Nat) : DictionaryStorage K V := w.heap p

/-- Writing the storage object at an address. -/
def store (w : World K V) (p : Nat) (s : DictionaryStorage K V) : World K V :=
  { w with heap := fun q => if q = p then s else w.heap q }

/-- Writing back the map of the storage object at `p` together with the
allocator state an operation on it left behind. -/
def put_map (w : World K V) (p : Nat) (map : HashMap K V) (a : Allocator) : World K V :=
  { (w.store p { w.deref p with map := map }) with allocator := a }

/-- Modelled from the spec: `adopt_nonnull_ref_or_enomem(new (nothrow) Storage)`.
A granted request creates a storage object with an empty map and reference
count one at an unused address; a refused one gives `ENOMEM`. -/
def adopt_new_storage (w : World K V) : ErrorOr Nat × World K V :=
  if w.allocator.granted then
    (.ok w.brk,
      { heap := fun q => if q = w.brk then { ref_count := 1, map := HashMap.empty }
                         else w.heap q,
        brk := w.brk + 1,
        allocator := w.allocator.advance })
  else
    (.error .ENOMEM, { w with allocator := w.allocator.advance })

/-- Modelled from the spec: `RefCounted::ref`, taken when a `NonnullRefPtr` is
copied. -/
def ref (w : World K V) (p : Nat) : World K V :=
  w.store p { w.deref p with ref_count := (w.deref p).ref_count + 1 }

/-- Modelled from the spec: `RefCounted::unref`, run when a `NonnullRefPtr` is
destroyed.  The storage object is destroyed, map included, when its last
reference disappears. -/
def unref (w : World K V) (p : Nat) : World K V :=
  if (w.deref p).ref_count - 1 = 0 then
    w.store p { ref_count := 0, map := HashMap.empty }
  else
    w.store p { w.deref p with ref_count := (w.deref p).ref_count - 1 }

/-- The data invariant of the world: the map of every storage object has unique
keys. -/
def unique_keys (w : World K V) : Prop := ∀ p, (w.deref p).map.unique_keys

end World

/-! ## `Dictionary` -/

/-- The class `Dictionary<K, V>`: one `NonnullRefPtr<Storage>`, here the address
of the storage object. -/
structure Dictionary (K V : Type) where
  m_storage : Nat
  deriving DecidableEq, Repr

/-- The class `DictionaryIterator<K, V>`: a reference to the storage object and
a cursor into its map. -/
structure DictionaryIterator (K V : Type) where
  m_storage : Nat
  m_iterator : HashMap.IteratorType
  deriving DecidableEq, Repr

/-- The struct `Dictionary::Entry`. -/
structure Dictionary.Entry (K V : Type) where
  key : K
  value : V
  deriving DecidableEq, Repr

namespace DictionaryIterator

variable {K V : Type} [DecidableEq K]

/-- The constructor `DictionaryIterator(NonnullRefPtr<Storage> storage)`: takes
over the reference it is handed and places the cursor at `map.begin()`. -/
def create (storage : Nat) (w : World K V) : DictionaryIterator K V :=
  { m_storage := storage, m_iterator := (w.deref storage).map.begin }

/-- The member `next()`.  The outer `none` stands for undefined behaviour: a
cursor that is not past the end and points at no entry, which only a mutation
of the map during the iteration can produce. -/
def next (it : DictionaryIterator K V) (w : World K V) :
    Option (Option (K × V) × DictionaryIterator K V) :=
  if it.m_iterator = (w.deref it.m_storage).map.end_ then
    some (none, it)
  else
    match (w.deref it.m_storage).map.deref it.m_iterator with
    | none => none
    | some res =>
      some (some (res.1, res.2),
        { it with m_iterator := (w.deref it.m_storage).map.advance it.m_iterator })

/-- Destruction of an iterator: its reference to the storage is released. -/
def drop (it : DictionaryIterator K V) (w : World K V) : World K V :=
  w.unref it.m_storage

end DictionaryIterator

namespace Dictionary

variable {K V : Type} [DecidableEq K]

/-- The member `is_empty()`. -/
def is_empty (d : Dictionary K V) (w : World K V) : Bool :=
  (w.deref d.m_storage).map.is_empty

/-- The member `size()`. -/
def size (d : Dictionary K V) (w : World K V) : Nat :=
  (w.deref d.m_storage).map.size

/-- The member `clear()`. -/
def clear (d : Dictionary K V) (w : World K V) : World K V :=
  w.put_map d.m_storage (w.deref d.m_storage).map.clear w.allocator

/-- The member `set(key, value)`: `TRY(m_storage->map.set(key, move(value)))`. -/
def set (d : Dictionary K V) (key : K) (value : V) (w : World K V) :
    ErrorOr Unit × World K V :=
  match (w.deref d.m_storage).map.set key value w.allocator with
  | (.error e, map, a) => (.error e, w.put_map d.m_storage map a)
  | (.ok _, map, a) => (.ok (), w.put_map d.m_storage map a)

/-- The member `remove(key)`. -/
def remove (d : Dictionary K V) (key : K) (w : World K V) : Bool × World K V :=
  (((w.deref d.m_storage).map.remove key).1,
    w.put_map d.m_storage ((w.deref d.m_storage).map.remove key).2 w.allocator)

/-- The member `contains(key)`. -/
def contains (d : Dictionary K V) (key : K) (w : World K V) : Bool :=
  (w.deref d.m_storage).map.contains key

/-- The member `get(key)`. -/
def get (d : Dictionary K V) (key : K) (w : World K V) : Option V :=
  (w.deref d.m_storage).map.get key

/-- The member `operator[]`: `m_storage->map.get(key).value()`.  `none` stands
for the fatal branch taken by `value()` on an empty optional. -/
def index (d : Dictionary K V) (key : K) (w : World K V) : Option V :=
  match (w.deref d.m_storage).map.get key with
  | some v => some v
  | none => none

/-- The range-based loop of `keys()`: from cursor `it` on, `MUST(keys.push(it.key))`
for every entry up to `map.end()`.  `none` stands for the abort of `MUST`, for a
cursor that points at no entry, and for running out of `fuel`. -/
def keys_loop (map : HashMap K V) :
    Nat → HashMap.IteratorType → Array K → Allocator → Option (Array K × Allocator)
  | 0, it, keys, a => if it = map.end_ then some (keys, a) else none
  | fuel + 1, it, keys, a =>
    if it = map.end_ then some (keys, a)
    else
      match map.deref it with
      | none => none
      | some entry =>
        match keys.push entry.1 a with
        | (.error _, _, _) => none
        | (.ok _, keys1, a1) => keys_loop map fuel (map.advance it) keys1 a1

/-- The member `keys()`.  The loop is given one unit of fuel per entry of the
map.  `none` stands for the abort of `MUST`. -/
def keys (d : Dictionary K V) (w : World K V) : Option (ErrorOr (Array K) × World K V) :=
  match (Array.empty : Array K).ensure_capacity (w.deref d.m_storage).map.size w.allocator with
  | (.error e, _, a) => some (.error e, { w with allocator := a })
  | (.ok _, keys0, a) =>
    match keys_loop (w.deref d.m_storage).map (w.deref d.m_storage).map.size
        (w.deref d.m_storage).map.begin keys0 a with
    | none => none
    | some (keys1, a1) => some (.ok keys1, { w with allocator := a1 })

/-- The member `ensure_capacity(capacity)`. -/
def ensure_capacity (d : Dictionary K V) (capacity : Nat) (w : World K V) :
    ErrorOr Unit × World K V :=
  match (w.deref d.m_storage).map.ensure_capacity capacity w.allocator with
  | (.error e, map, a) => (.error e, w.put_map d.m_storage map a)
  | (.ok _, map, a) => (.ok (), w.put_map d.m_storage map a)

/-- The default constructor `Dictionary()`:
`MUST(adopt_nonnull_ref_or_enomem(new (nothrow) Storage))`.  `none` stands for
the abort of `MUST`. -/
def default_construct (w : World K V) : Option (Dictionary K V × World K V) :=
  match w.adopt_new_storage with
  | (.error _, _) => none
  | (.ok storage, w1) => some ({ m_storage := storage }, w1)

/-- The static member `create_empty()`. -/
def create_empty (w : World K V) : ErrorOr (Dictionary K V) × World K V :=
  match w.adopt_new_storage with
  | (.error e, w1) => (.error e, w1)
  | (.ok storage, w1) => (.ok { m_storage := storage }, w1)

/-- Copy construction of a handle: the `NonnullRefPtr` is copied, which takes
one more reference on the same storage object. -/
def copy (d : Dictionary K V) (w : World K V) : Dictionary K V × World K V :=
  ({ m_storage := d.m_storage }, w.ref d.m_storage)

/-- Destruction of a handle: its reference to the storage is released. -/
def drop (d : Dictionary K V) (w : World K V) : World K V :=
  w.unref d.m_storage

/-- The loop of `create_with_entries`: `TRY(dictionary.set(item.key, item.value))`
for every item of the list, in order. -/
def create_with_entries_loop (dictionary : Dictionary K V) :
    List (Entry K V) → World K V → ErrorOr Unit × World K V
  | [], w => (.ok (), w)
  | item :: rest, w =>
    match dictionary.set item.key item.value w with
    | (.error e, w1) => (.error e, w1)
    | (.ok _, w1) => create_with_entries_loop dictionary rest w1

/-- The static member `create_with_entries(list)`.  Leaving through a `TRY`
destroys the local `dictionary`, which releases the storage it created. -/
def create_with_entries (list : List (Entry K V)) (w : World K V) :
    ErrorOr (Dictionary K V) × World K V :=
  match create_empty w with
  | (.error e, w1) => (.error e, w1)
  | (.ok dictionary, w1) =>
    match dictionary.ensure_capacity list.length w1 with
    | (.error e, w2) => (.error e, dictionary.drop w2)
    | (.ok _, w2) =>
      match create_with_entries_loop dictionary list w2 with
      | (.error e, w3) => (.error e, dictionary.drop w3)
      | (.ok _, w3) => (.ok dictionary, w3)

/-- The member `iterator()`: `DictionaryIterator<K, V> { m_storage }` copies the
`NonnullRefPtr` (one more reference) and hands it to the constructor. -/
def iterator (d : Dictionary K V) (w : World K V) : DictionaryIterator K V × World K V :=
  (DictionaryIterator.create d.m_storage (w.ref d.m_storage), w.ref d.m_storage)

/-- The mutating members of `Dictionary`, as data: a call of `set`, `remove`,
`clear` or `ensure_capacity` with its arguments. -/
inductive Mutation (K V : Type) where
  | set (key : K) (value : V)
  | remove (key : K)
  | clear
  | ensure_capacity (capacity : Nat)

/-- The world after one mutating member has been called through the handle `d`,
whatever the call returned. -/
def mutate (d : Dictionary K V) : Mutation K V → World K V → World K V
  | .set key value, w => (d.set key value w).2
  | .remove key, w => (d.remove key w).2
  | .clear, w => d.clear w
  | .ensure_capacity capacity, w => (d.ensure_capacity capacity w).2

/-- The world after a sequence of mutating members has been called through `d`,
one after the other. -/
def mutate_all (d : Dictionary K V) (ms : List (Mutation K V)) (w : World K V) : World K V :=
  ms.foldl (fun w1 m => d.mutate m w1) w

/-- A mutation that is a `set` or a `remove` of a key different from `k`. -/
def Mutation.set_or_remove_of_other_key (k : K) : Mutation K V → Prop
  | .set key _ => key ≠ k
  | .remove key => key ≠ k
  | .clear => False
  | .ensure_capacity _ => False

end Dictionary

/-! ## Notions used to state the claims -/

/-- The value of the last entry of the list whose key is `k`, if there is one. -/
def last_value_for {K V : Type} [DecidableEq K] (list : List (Dictionary.Entry K V)) (k : K) :
    Option V :=
  (list.reverse.find? (fun e => decide (e.key = k))).map (fun e => e.value)

/-- The results of `n` successive calls of `next()` on an iterator while the
world stays as it is, with the iterator after the last call.  `none` when one of
the calls is undefined. -/
def DictionaryIterator.next_n {K V : Type} [DecidableEq K] (w : World K V) :
    Nat → DictionaryIterator K V → Option (List (Option (K × V)) × DictionaryIterator K V)
  | 0, it => some ([], it)
  | n + 1, it =>
    match it.next w with
    | none => none
    | some (r, it1) =>
      match next_n w n it1 with
      | none => none
      | some (rs, it2) => some (r :: rs, it2)

/-- The results of successive calls of `next()` on an iterator, one call in each
world of the list, with the iterator after the last call.  `none` when one of the
calls is undefined. -/
def DictionaryIterator.next_each {K V : Type} [DecidableEq K] :
    List (World K V) → DictionaryIterator K V →
      Option (List (Option (K × V)) × DictionaryIterator K V)
  | [], it => some ([], it)
  | w :: ws, it =>
    match it.next w with
    | none => none
    | some (r, it1) =>
      match next_each ws it1 with
      | none => none
      | some (rs, it2) => some (r :: rs, it2)

/-- The results of a sequence of `set` calls through `d`, one call per entry of
the list and in its order, with the world after the last call. -/
def Dictionary.set_each {K V : Type} [DecidableEq K] (d : Dictionary K V) :
    List (Dictionary.Entry K V) → World K V → List (ErrorOr Unit) × World K V
  | [], w => ([], w)
  | item :: rest, w =>
    ((d.set item.key item.value w).1 :: (set_each d rest (d.set item.key item.value w).2).1,
      (set_each d rest (d.set item.key item.value w).2).2)

/-- The world after the handles of the list have been destroyed, one after the
other. -/
def Dictionary.drop_all {K V : Type} (hs : List (Dictionary K V)) (w : World K V) :
    World K V :=
  hs.foldl (fun w1 h => h.drop w1) w

/-- Modelled from the spec: the program state together with the storage of the
sequences that `keys()` has returned.  `arrays h` is the sequence behind the
handle `h`, `array_brk` the first handle not yet in use. -/
structure Memory (K V : Type) where
  world : World K V
  arrays : Nat → Array K
  array_brk : Nat

/-- A call of `d.keys()` whose result is handed to the caller: the sequence built
by `keys()` becomes a new object of its own, and the caller gets its handle. -/
def Memory.keys {K V : Type} [DecidableEq K] (d : Dictionary K V) (s : Memory K V) :
    Option (ErrorOr Nat × Memory K V) :=
  match d.keys s.world with
  | none => none
  | some (.error e, w1) => some (.error e, { s with world := w1 })
  | some (.ok keys, w1) =>
    some (.ok s.array_brk,
      { world := w1,
        arrays := fun h => if h = s.array_brk then keys else s.arrays h,
        array_brk := s.array_brk + 1 })

/-- A sequence of mutating members of `Dictionary`, each called through the handle
it is paired with. -/
def Memory.mutate_all {K V : Type} [DecidableEq K]
    (ms : List (Dictionary K V × Dictionary.Mutation K V)) (s : Memory K V) : Memory K V :=
  { s with world := ms.foldl (fun w1 m => m.1.mutate m.2 w1) s.world }

/-- A mutation of the sequence behind the handle `h`: `f` stands for any member
of the sequence type, which may change the sequence and use the allocator. -/
def Memory.mutate_array {K V : Type} (h : Nat)
    (f : Array K → Allocator → Array K × Allocator) (s : Memory K V) : Memory K V :=
  { world := { s.world with allocator := (f (s.arrays h) s.world.allocator).2 },
    arrays := fun q => if q = h then (f (s.arrays h) s.world.allocator).1 else s.arrays q,
    array_brk := s.array_brk }

/-- The number of distinct keys among the entries of the list. -/
def distinct_key_count {K V : Type} [DecidableEq K] (list : List (Dictionary.Entry K V)) : Nat :=
  (list.map (fun e => e.key)).toFinset.card

/-! ## Example data -/

namespace Example

/-- A world without storage objects whose allocator grants every request. -/
def w0 : World Nat Nat := World.initial (fun _ => true)

/-- The world after one `create_empty()` in `w0`. -/
def w1 : World Nat Nat := (Dictionary.create_empty w0).2

/-- The world after a second `create_empty()`. -/
def w2 : World Nat Nat := (Dictionary.create_empty w1).2

/-- The handle the first `create_empty()` returns. -/
def d0 : Dictionary Nat Nat := { m_storage := 0 }

/-- The handle the second `create_empty()` returns. -/
def d1 : Dictionary Nat Nat := { m_storage := 1 }

/-- A list of entries in which key 1 occurs twice. -/
def entries : List (Dictionary.Entry Nat Nat) := [⟨1, 10⟩, ⟨1, 11⟩, ⟨2, 12⟩]

/-- The world after `create_with_entries(entries)` in `w0`. -/
def w_batch : World Nat Nat := (Dictionary.create_with_entries entries w0).2

/-- A world without storage objects whose allocator grants the first request and
refuses all later ones. -/
def w_tight : World Nat Nat := World.initial (fun i => decide (i < 1))

/-- The world after `create_with_entries(entries)` has failed in `w_tight`. -/
def w_failed : World Nat Nat := (Dictionary.create_with_entries entries w_tight).2

/-- The world after `keys()` has been called on the dictionary of `w_batch`. -/
def w_keys : World Nat Nat := { w_batch with allocator := w_batch.allocator.advance }

/-- The sequence `keys()` returns for the dictionary of `w_batch`. -/
def keys_batch : Array Nat := { items := [1, 2], capacity := 2 }

/-- The world after one `create_empty()` with an allocator that grants the first
two requests and refuses all later ones. -/
def w_reserve : World Nat Nat :=
  (Dictionary.create_empty (World.initial (fun i => decide (i < 2)))).2

/-- The world after the loop of `create_with_entries` has run over `entries` on the
dictionary of `w_reserve`, whose map has no capacity: the first `set` is granted
its growth, the second overwrites, and the third is refused its growth. -/
def w_stopped : World Nat Nat := (d0.create_with_entries_loop entries w_reserve).2

/-- The world after `ensure_capacity(2)` on the dictionary of `w_reserve`. -/
def w_reserved : World Nat Nat := (d0.ensure_capacity 2 w_reserve).2

/-- The world after the handle `d0` has been copied in `w_batch`. -/
def w_shared : World Nat Nat := (d0.copy w_batch).2

/-- The dictionary of `w_batch` and no sequence yet. -/
def s_batch : Memory Nat Nat :=
  { world := w_batch, arrays := fun _ => Array.empty, array_brk := 0 }

/-- The memory after `keys()` has been called on the dictionary of `s_batch`. -/
def s_keys : Memory Nat Nat :=
  { world := w_keys, arrays := fun h => if h = 0 then keys_batch else Array.empty,
    array_brk := 1 }

/-- The iterator `iterator()` returns for the dictionary of `w1`, which is empty. -/
def it_empty : DictionaryIterator Nat Nat := { m_storage := 0, m_iterator := none }

end Example

/-! ## Facts about the `HashMap` model -/

set_option linter.unusedSectionVars false

namespace HashMap

variable {K V : Type} [DecidableEq K]

theorem find_map_overwrite_self (l : List (K × V)) (key : K) (value : V)
    (h : l.any (fun e => decide (e.1 = key)) = true) :
    (l.map (fun e => if e.1 = key then (key, value) else e)).find?
      (fun e => decide (e.1 = key)) = some (key, value) := by
  induction l with
  | nil => simp at h
  | cons e rest ih =>
    by_cases he : e.1 = key
    · simp [he]
    · have hrest : rest.any (fun e => decide (e.1 = key)) = true := by
        simpa [he] using h
      simp [he, ih hrest]

theorem find_map_overwrite_other (l : List (K × V)) (key other : K) (value : V)
    (h : other ≠ key) :
    ((l.map (fun e => if e.1 = key then (key, value) else e)).find?
      (fun e => decide (e.1 = other))).map Prod.snd
      = (l.find? (fun e => decide (e.1 = other))).map Prod.snd := by
  induction l with
  | nil => simp
  | cons e rest ih =>
    by_cases he : e.1 = key
    · have hne : ¬ e.1 = other := fun h1 => h (h1.symm.trans he)
      have hne2 : ¬ key = other := fun h1 => h h1.symm
      simp only [List.map_cons, he, if_true, List.find?_cons, hne, hne2, decide_False]
      exact ih
    · by_cases ho : e.1 = other
      · rw [List.map_cons, if_neg he, List.find?_cons, List.find?_cons]
        simp only [ho, decide_True]
      · simp only [List.map_cons, he, if_false, List.find?_cons, ho, decide_False]
        exact ih

theorem find_append_other (l : List (K × V)) (key other : K) (value : V)
    (h : other ≠ key) :
    (l ++ [(key, value)]).find? (fun e => decide (e.1 = other))
      = l.find? (fun e => decide (e.1 = other)) := by
  have hne : ¬ key = other := fun h1 => h h1.symm
  have hlast : [(key, value)].find? (fun e => decide (e.1 = other)) = none := by
    simp [hne]
  rw [List.find?_append, hlast, Option.or_none]

theorem find_none_of_not_any (l : List (K × V)) (key : K)
    (h : ¬ l.any (fun e => decide (e.1 = key)) = true) :
    l.find? (fun e => decide (e.1 = key)) = none := by
  induction l with
  | nil => simp
  | cons e rest ih =>
    simp only [List.any_cons, Bool.or_eq_true, decide_eq_true_eq, not_or] at h
    simp [h.1, ih h.2]

/-- In the model, `get` finds a value exactly for the keys `contains` reports. -/
theorem contains_iff_get_isSome (m : HashMap K V) (key : K) :
    m.contains key = (m.get key).isSome := by
  unfold contains get
  induction m.buckets with
  | nil => simp
  | cons e rest ih =>
    by_cases he : e.1 = key
    · simp [he]
    · simp only [List.any_cons, he, decide_False, Bool.false_or, List.find?_cons]
      exact ih

theorem get_eq_none_of_not_contains (m : HashMap K V) (key : K)
    (h : m.contains key = false) : m.get key = none := by
  have h1 := contains_iff_get_isSome m key
  rw [h] at h1
  cases hg : m.get key with
  | none => rfl
  | some v => rw [hg] at h1; simp at h1

/-- In the model, a successful `set` makes `get` return the value set. -/
theorem get_set_self (m : HashMap K V) (key : K) (value : V) (a : Allocator)
    (h : (m.set key value a).1 = .ok ()) :
    (m.set key value a).2.1.get key = some value := by
  unfold set at h ⊢
  by_cases hc : m.contains key = true
  · simp only [hc, if_true, get]
    rw [find_map_overwrite_self m.buckets key value hc]
    rfl
  · have hnone := find_none_of_not_any m.buckets key hc
    simp only [hc]
    by_cases hcap : m.size < m.capacity
    · simp [hcap, get, List.find?_append, hnone]
    · by_cases hg : a.granted = true
      · simp [hcap, hg, get, List.find?_append, hnone]
      · simp [hc, hcap, hg] at h

/-- In the model, `set` leaves the lookups of all other keys as they were,
whether it succeeds or fails. -/
theorem get_set_other (m : HashMap K V) (key other : K) (value : V) (a : Allocator)
    (h : other ≠ key) :
    (m.set key value a).2.1.get other = m.get other := by
  have hne : ¬ key = other := fun h1 => h h1.symm
  unfold set
  by_cases hc : m.contains key = true
  · simp only [hc, if_true, get]
    exact find_map_overwrite_other m.buckets key other value h
  · simp only [hc, Bool.false_eq_true, if_false]
    by_cases hcap : m.size < m.capacity
    · simp only [hcap, if_true, get, find_append_other m.buckets key other value h]
    · by_cases hg : a.granted = true
      · simp only [hcap, hg, if_true, if_false, get,
          find_append_other m.buckets key other value h]
      · simp [hcap, hg]

/-- In the model, a successful `set` makes `contains` report the key. -/
theorem contains_set_self (m : HashMap K V) (key : K) (value : V) (a : Allocator)
    (h : (m.set key value a).1 = .ok ()) :
    (m.set key value a).2.1.contains key = true := by
  rw [contains_iff_get_isSome, get_set_self m key value a h]
  rfl

theorem find_filter_other (l : List (K × V)) (key other : K) (h : other ≠ key) :
    (l.filter (fun e => !decide (e.1 = key))).find? (fun e => decide (e.1 = other))
      = l.find? (fun e => decide (e.1 = other)) := by
  induction l with
  | nil => rfl
  | cons e rest ih =>
    by_cases he : e.1 = key
    · have hne : ¬ key = other := fun h1 => h h1.symm
      rw [List.filter_cons, List.find?_cons]
      simp only [he, decide_True, Bool.not_true, Bool.false_eq_true, if_false, hne,
        decide_False]
      exact ih
    · rw [List.filter_cons]
      simp only [he, decide_False, Bool.not_false, if_true, List.find?_cons]
      rw [ih]

theorem any_filter_self (l : List (K × V)) (key : K) :
    (l.filter (fun e => !decide (e.1 = key))).any (fun e => decide (e.1 = key)) = false := by
  induction l with
  | nil => rfl
  | cons e rest ih =>
    by_cases he : e.1 = key
    · rw [List.filter_cons]
      simp only [he, decide_True, Bool.not_true, Bool.false_eq_true, if_false]
      exact ih
    · rw [List.filter_cons]
      simp only [he, decide_False, Bool.not_false, if_true, List.any_cons, Bool.false_or]
      exact ih

/-- In the model, `remove` returns whether the key was present. -/
theorem remove_fst (m : HashMap K V) (key : K) : (m.remove key).1 = m.contains key := by
  unfold remove
  by_cases hc : m.contains key = true
  · simp [hc]
  · simp only [hc, Bool.false_eq_true, if_false]

/-- In the model, the key is absent after `remove`. -/
theorem contains_remove_self (m : HashMap K V) (key : K) :
    (m.remove key).2.contains key = false := by
  unfold remove
  by_cases hc : m.contains key = true
  · simp only [hc, if_true]
    exact any_filter_self m.buckets key
  · simp only [hc, Bool.false_eq_true, if_false]

/-- In the model, `remove` leaves the lookups of all other keys as they were. -/
theorem get_remove_other (m : HashMap K V) (key other : K) (h : other ≠ key) :
    (m.remove key).2.get other = m.get other := by
  unfold remove
  by_cases hc : m.contains key = true
  · simp only [hc, if_true, get, find_filter_other m.buckets key other h]
  · simp only [hc, Bool.false_eq_true, if_false]

/-- In the model, after a successful `set` a lookup gives the value set for that
key and what it gave before for every other key. -/
theorem get_set (m : HashMap K V) (key k : K) (value : V) (a : Allocator)
    (h : (m.set key value a).1 = .ok ()) :
    (m.set key value a).2.1.get k = if k = key then some value else m.get k := by
  by_cases hk : k = key
  · subst hk
    rw [if_pos rfl]
    exact get_set_self m k value a h
  · rw [if_neg hk]
    exact get_set_other m key k value a hk

theorem map_fst_overwrite (l : List (K × V)) (key : K) (value : V) :
    (l.map (fun e => if e.1 = key then (key, value) else e)).map Prod.fst
      = l.map Prod.fst := by
  induction l with
  | nil => rfl
  | cons e rest ih =>
    by_cases he : e.1 = key
    · rw [List.map_cons, List.map_cons, if_pos he, ih, List.map_cons, he]
    · rw [List.map_cons, List.map_cons, if_neg he, ih, List.map_cons]

theorem mem_key_list_iff_contains (m : HashMap K V) (key : K) :
    key ∈ m.key_list ↔ m.contains key = true := by
  unfold key_list contains
  induction m.buckets with
  | nil => simp
  | cons e rest ih =>
    simp only [List.map_cons, List.mem_cons, List.any_cons, Bool.or_eq_true,
      decide_eq_true_eq, ih]
    constructor
    · rintro (h | h)
      · exact Or.inl h.symm
      · exact Or.inr h
    · rintro (h | h)
      · exact Or.inl h.symm
      · exact Or.inr h

/-- In the model, the keys after `set`: unchanged when the key was present or the
call failed, the new key appended otherwise. -/
theorem key_list_set (m : HashMap K V) (key : K) (value : V) (a : Allocator) :
    (m.set key value a).2.1.key_list =
      if m.contains key = true ∨ (m.set key value a).1 ≠ .ok () then m.key_list
      else m.key_list ++ [key] := by
  unfold set
  by_cases hc : m.contains key = true
  · simp only [hc, if_true, true_or, key_list]
    exact map_fst_overwrite m.buckets key value
  · simp only [hc, Bool.false_eq_true, if_false, false_or]
    by_cases hcap : m.size < m.capacity
    · simp [hcap, key_list]
    · by_cases hg : a.granted = true
      · simp [hcap, hg, key_list]
      · simp [hcap, hg, key_list]

/-- In the model, `set` keeps the keys unique. -/
theorem unique_keys_set (m : HashMap K V) (key : K) (value : V) (a : Allocator)
    (h : m.unique_keys) : (m.set key value a).2.1.unique_keys := by
  unfold unique_keys
  rw [key_list_set]
  split
  · exact h
  · rename_i hcond
    have hnc : ¬ key ∈ m.key_list := by
      rw [mem_key_list_iff_contains]
      exact fun hc => hcond (Or.inl hc)
    refine List.Nodup.append h (List.nodup_singleton key) ?_
    intro x hx hx1
    rw [List.mem_singleton] at hx1
    exact hnc (hx1 ▸ hx)

/-- In the model, a successful `set` adds its key to the set of keys. -/
theorem key_set_set (m : HashMap K V) (key : K) (value : V) (a : Allocator)
    (h : (m.set key value a).1 = .ok ()) :
    (m.set key value a).2.1.key_list.toFinset = insert key m.key_list.toFinset := by
  rw [key_list_set]
  by_cases hc : m.contains key = true
  · have hmem : key ∈ m.key_list.toFinset := by
      rw [List.mem_toFinset, mem_key_list_iff_contains]
      exact hc
    rw [if_pos (Or.inl hc), Finset.insert_eq_of_mem hmem]
  · have hcond : ¬ (m.contains key = true ∨ (m.set key value a).1 ≠ .ok ()) := by
      rintro (h1 | h1)
      · exact hc h1
      · exact h1 h
    rw [if_neg hcond]
    ext x
    simp only [List.toFinset_append, List.toFinset_cons, List.toFinset_nil,
      Finset.mem_union, Finset.mem_insert, List.mem_toFinset, Finset.mem_singleton,
      insert_emptyc_eq]
    tauto

/-- In the model, a map with unique keys has as many entries as distinct keys. -/
theorem size_eq_card_of_unique_keys (m : HashMap K V) (h : m.unique_keys) :
    m.size = m.key_list.toFinset.card := by
  rw [List.toFinset_card_of_nodup h]
  simp [size, key_list]

/-- In the model, `remove` keeps the keys unique. -/
theorem unique_keys_remove (m : HashMap K V) (key : K) (h : m.unique_keys) :
    (m.remove key).2.unique_keys := by
  unfold remove
  split
  · exact List.Nodup.sublist ((List.filter_sublist m.buckets).map Prod.fst) h
  · exact h

/-- In the model, an empty map has unique keys. -/
theorem unique_keys_empty : (empty : HashMap K V).unique_keys := List.nodup_nil

/-- In the model, `ensure_capacity` keeps the keys unique. -/
theorem unique_keys_ensure_capacity (m : HashMap K V) (n : Nat) (a : Allocator)
    (h : m.unique_keys) : (m.ensure_capacity n a).2.1.unique_keys := by
  unfold ensure_capacity
  split <;> exact h

theorem find_of_mem_of_nodup (l : List (K × V)) (e : K × V) (h : (l.map Prod.fst).Nodup)
    (he : e ∈ l) : l.find? (fun x => decide (x.1 = e.1)) = some e := by
  induction l with
  | nil => simp at he
  | cons x rest ih =>
    rw [List.map_cons, List.nodup_cons] at h
    rcases List.mem_cons.mp he with hx | hx
    · subst hx
      simp
    · have hne : ¬ x.1 = e.1 := by
        intro hxe
        exact h.1 (hxe ▸ List.mem_map_of_mem Prod.fst hx)
      rw [List.find?_cons]
      simp only [hne, decide_False]
      exact ih h.2 hx

/-- In the model, a map with unique keys returns for the key of each of its
entries the value of that entry. -/
theorem get_of_mem_buckets (m : HashMap K V) (e : K × V) (h : m.unique_keys)
    (he : e ∈ m.buckets) : m.get e.1 = some e.2 := by
  unfold get
  rw [find_of_mem_of_nodup m.buckets e h he]
  rfl

/-- In the model, a `set` that leaves the map with no more entries than its
capacity succeeds without asking the allocator, and leaves the capacity as it is. -/
theorem set_within_capacity (m : HashMap K V) (key : K) (value : V) (a : Allocator)
    (hu : m.unique_keys) (hroom : (insert key m.key_list.toFinset).card ≤ m.capacity) :
    (m.set key value a).1 = .ok () ∧ (m.set key value a).2.2 = a
      ∧ (m.set key value a).2.1.capacity = m.capacity := by
  unfold set
  by_cases hc : m.contains key = true
  · simp [hc]
  · have hnot : key ∉ m.key_list.toFinset := by
      rw [List.mem_toFinset, mem_key_list_iff_contains]
      exact hc
    rw [Finset.card_insert_of_not_mem hnot, ← size_eq_card_of_unique_keys m hu] at hroom
    have hlt : m.size < m.capacity := by omega
    simp [hc, hlt]

/-- In the model, a successful `ensure_capacity` leaves room for the requested
number of entries. -/
theorem capacity_ensure_capacity (m : HashMap K V) (n : Nat) (a : Allocator)
    (h : (m.ensure_capacity n a).1 = .ok ()) : n ≤ (m.ensure_capacity n a).2.1.capacity := by
  unfold ensure_capacity at h ⊢
  by_cases hg : a.granted = true
  · simp [hg]
  · simp [hg] at h

/-- In the model, a successful `set` adds one entry when the key was absent and
none when it was present. -/
theorem size_set (m : HashMap K V) (key : K) (value : V) (a : Allocator)
    (h : (m.set key value a).1 = .ok ()) :
    (m.set key value a).2.1.size = if m.contains key = true then m.size else m.size + 1 := by
  unfold set at h ⊢
  by_cases hc : m.contains key = true
  · simp only [hc, if_true]
    simp [size]
  · by_cases hcap : m.size < m.capacity
    · simp only [hc, hcap, Bool.false_eq_true, if_true, if_false]
      simp [size]
    · by_cases hg : a.granted = true
      · simp only [hc, hcap, hg, Bool.false_eq_true, if_true, if_false]
        simp [size]
      · simp [hc, hcap, hg] at h

/-- In the model, the queries depend on the entries only. -/
theorem queries_of_buckets_eq (m1 m2 : HashMap K V) (h : m1.buckets = m2.buckets) (k : K) :
    m1.size = m2.size ∧ m1.is_empty = m2.is_empty ∧ m1.contains k = m2.contains k
      ∧ m1.get k = m2.get k ∧ m1.key_list = m2.key_list := by
  simp only [size, is_empty, contains, get, key_list, h, and_self]

/-- In the model, a `set` that fails leaves the map unmodified. -/
theorem set_error_unchanged (m : HashMap K V) (key : K) (value : V) (a : Allocator)
    (e : Error) (h : (m.set key value a).1 = .error e) : (m.set key value a).2.1 = m := by
  unfold set at h ⊢
  by_cases hc : m.contains key = true
  · simp [hc] at h
  · by_cases hcap : m.size < m.capacity
    · simp [hc, hcap] at h
    · by_cases hg : a.granted = true
      · simp [hc, hcap, hg] at h
      · simp [hc, hcap, hg]

/-- In the model, `begin` is the cursor that has passed no entry. -/
theorem begin_eq_cursor_at (m : HashMap K V) : m.begin = m.cursor_at 0 := by
  unfold begin cursor_at
  cases m.buckets with
  | nil => rfl
  | cons e rest => simp

/-- In the model, `ensure_capacity` leaves the entries as they were, whether it
succeeds or fails. -/
theorem buckets_ensure_capacity (m : HashMap K V) (n : Nat) (a : Allocator) :
    (m.ensure_capacity n a).2.1.buckets = m.buckets := by
  unfold ensure_capacity
  split <;> rfl

end HashMap

/-! ## Facts about the `Array` model -/

namespace Array

variable {T : Type}

/-- In the model, a successful `push` appends the element. -/
theorem items_push (arr : Array T) (x : T) (a : Allocator)
    (h : (arr.push x a).1 = .ok ()) : (arr.push x a).2.1.items = arr.items ++ [x] := by
  unfold push at h ⊢
  by_cases hcap : arr.size < arr.capacity
  · simp [hcap]
  · by_cases hg : a.granted = true
    · simp [hcap, hg]
    · simp [hcap, hg] at h

/-- In the model, `ensure_capacity` leaves the elements as they were. -/
theorem items_ensure_capacity (arr : Array T) (n : Nat) (a : Allocator) :
    (arr.ensure_capacity n a).2.1.items = arr.items := by
  unfold ensure_capacity
  split <;> rfl

/-- In the model, a `push` into reserved room succeeds without asking the
allocator. -/
theorem push_within_capacity (arr : Array T) (x : T) (a : Allocator)
    (h : arr.size < arr.capacity) :
    arr.push x a = (.ok (), { arr with items := arr.items ++ [x] }, a) := by
  unfold push
  rw [if_pos h]

end Array

/-! ## Facts about the world -/

namespace World

variable {K V : Type}

theorem deref_put_map_same (w : World K V) (p : Nat) (map : HashMap K V)
    (a : Allocator) : ((w.put_map p map a).deref p).map = map := by
  simp [put_map, store, deref]

theorem deref_put_map_other (w : World K V) (p q : Nat) (map : HashMap K V)
    (a : Allocator) (h : q ≠ p) : (w.put_map p map a).deref q = w.deref q := by
  simp [put_map, store, deref, h]

theorem ref_count_put_map (w : World K V) (p q : Nat) (map : HashMap K V)
    (a : Allocator) : ((w.put_map p map a).deref q).ref_count = (w.deref q).ref_count := by
  unfold put_map store deref
  by_cases h : q = p
  · simp [h]
  · simp [h]

/-- Releasing the last reference destroys the storage object. -/
theorem deref_unref_last (w : World K V) (p : Nat) (h : (w.deref p).ref_count = 1) :
    (w.unref p).deref p = { ref_count := 0, map := HashMap.empty } := by
  unfold unref
  rw [h]
  simp [store, deref]

theorem map_deref_unref (w : World K V) (p q : Nat) :
    ((w.unref p).deref q).map = (w.deref q).map
      ∨ ((w.unref p).deref q).map = HashMap.empty := by
  unfold unref
  by_cases hq : q = p
  · split
    · right
      simp [store, deref, hq]
    · left
      simp [store, deref, hq]
  · left
    split <;> simp [store, deref, hq]

/-- Releasing a reference that is not the last one leaves the storage object in
place with one reference less. -/
theorem deref_unref_shared (w : World K V) (p : Nat) (h : 2 ≤ (w.deref p).ref_count) :
    (w.unref p).deref p = { w.deref p with ref_count := (w.deref p).ref_count - 1 } := by
  unfold unref
  have hne : ¬ (w.deref p).ref_count - 1 = 0 := by omega
  rw [if_neg hne]
  simp [store, deref]

theorem ref_count_ref (w : World K V) (p : Nat) :
    ((w.ref p).deref p).ref_count = (w.deref p).ref_count + 1 := by
  simp [ref, store, deref]

theorem map_deref_ref (w : World K V) (p q : Nat) :
    ((w.ref p).deref q).map = (w.deref q).map := by
  unfold ref store deref
  by_cases h : q = p
  · simp [h]
  · simp [h]

end World

namespace DictionaryIterator

variable {K V : Type} [DecidableEq K]

/-- A call of `next()` on an exhausted iterator returns empty and leaves the
iterator as it is. -/
theorem next_at_end (it : DictionaryIterator K V) (w : World K V)
    (h : it.m_iterator = none) : it.next w = some (none, it) := by
  unfold next
  rw [h]
  rfl

/-- A call of `next()` on an iterator whose cursor is at entry `i` returns that
entry and moves the cursor on. -/
theorem next_at_entry (p : Nat) (w : World K V) (i : Nat)
    (h : i < (w.deref p).map.buckets.length) :
    next { m_storage := p, m_iterator := some i } w
      = some (some ((w.deref p).map.buckets.get ⟨i, h⟩),
          { m_storage := p, m_iterator := (w.deref p).map.cursor_at (i + 1) }) := by
  unfold next
  have hne : ¬ (some i : HashMap.IteratorType) = (w.deref p).map.end_ := by
    simp [HashMap.end_]
  simp only [hne, if_false, HashMap.deref, List.get?_eq_get h]
  rfl

/-- A call of `next()` leaves the iterator on its storage object. -/
theorem m_storage_next (it it1 : DictionaryIterator K V) (w : World K V)
    (r : Option (K × V)) (h : it.next w = some (r, it1)) : it1.m_storage = it.m_storage := by
  unfold next at h
  split at h
  · simp only [Option.some.injEq, Prod.mk.injEq] at h
    rw [← h.2]
  · split at h
    · simp at h
    · simp only [Option.some.injEq, Prod.mk.injEq] at h
      rw [← h.2]

/-- A call of `next()` depends on the world only through the map of the storage
object the iterator references. -/
theorem next_congr (it : DictionaryIterator K V) (w1 w2 : World K V)
    (h : (w2.deref it.m_storage).map = (w1.deref it.m_storage).map) :
    it.next w2 = it.next w1 := by
  unfold next
  rw [h]

/-- Successive calls of `next()` depend on the world only through the map of the
storage object the iterator references. -/
theorem next_n_congr (w1 w2 : World K V) (p : Nat)
    (h : (w2.deref p).map = (w1.deref p).map) (n : Nat) (it : DictionaryIterator K V)
    (hit : it.m_storage = p) : next_n w2 n it = next_n w1 n it := by
  induction n generalizing it with
  | zero => rfl
  | succ n ih =>
    rw [next_n, next_n, next_congr it w1 w2 (by rw [hit]; exact h)]
    cases hnext : it.next w1 with
    | none => rfl
    | some res =>
      obtain ⟨r, it1⟩ := res
      have hit1 : it1.m_storage = p := by
        rw [m_storage_next it it1 w1 r hnext]
        exact hit
      simp only
      rw [ih it1 hit1]

/-- From a cursor that has `k` entries ahead, `k + 1` calls of `next()` return
these entries in order and then empty, and leave the iterator exhausted. -/
theorem next_n_from_cursor (p : Nat) (w : World K V) (k i : Nat)
    (h : i + k = (w.deref p).map.buckets.length) :
    next_n w (k + 1) { m_storage := p, m_iterator := (w.deref p).map.cursor_at i }
      = some (((w.deref p).map.buckets.drop i).map some ++ [none],
          { m_storage := p, m_iterator := none }) := by
  induction k generalizing i with
  | zero =>
    have hi : ¬ i < (w.deref p).map.buckets.length := by omega
    have hdrop : (w.deref p).map.buckets.drop i = [] :=
      List.drop_of_length_le (by omega)
    simp only [HashMap.cursor_at, hi, if_false, next_n, hdrop, List.map_nil, List.nil_append]
    rw [next_at_end _ w rfl]
  | succ k ih =>
    have hi : i < (w.deref p).map.buckets.length := by omega
    have hcur : (w.deref p).map.cursor_at i = some i := by
      simp [HashMap.cursor_at, hi]
    rw [next_n, hcur, next_at_entry p w i hi]
    simp only
    rw [ih (i + 1) (by omega), List.drop_eq_getElem_cons hi]
    rfl

end DictionaryIterator

namespace Dictionary

variable {K V : Type} [DecidableEq K]

theorem deref_set_other (d : Dictionary K V) (key : K) (value : V) (w : World K V)
    (q : Nat) (h : q ≠ d.m_storage) : (d.set key value w).2.deref q = w.deref q := by
  unfold set
  split <;> exact World.deref_put_map_other w _ q _ _ h

theorem deref_ensure_capacity_other (d : Dictionary K V) (n : Nat) (w : World K V)
    (q : Nat) (h : q ≠ d.m_storage) : (d.ensure_capacity n w).2.deref q = w.deref q := by
  unfold ensure_capacity
  split <;> exact World.deref_put_map_other w _ q _ _ h

/-- A mutating member called through a handle leaves the storage objects at all
other addresses untouched. -/
theorem deref_mutate_other (d : Dictionary K V) (m : Mutation K V) (w : World K V)
    (q : Nat) (h : q ≠ d.m_storage) : (d.mutate m w).deref q = w.deref q := by
  cases m with
  | set key value => exact deref_set_other d key value w q h
  | remove key => exact World.deref_put_map_other w _ q _ _ h
  | clear => exact World.deref_put_map_other w _ q _ _ h
  | ensure_capacity n => exact deref_ensure_capacity_other d n w q h

/-- A successful `create_empty` returns the handle at the first unused address
and moves that mark up by one. -/
theorem create_empty_ok (w w1 : World K V) (d : Dictionary K V)
    (h : create_empty w = (.ok d, w1)) :
    d.m_storage = w.brk ∧ w1.brk = w.brk + 1 ∧ (w1.deref d.m_storage).map = HashMap.empty
      ∧ ∀ q, q ≠ w.brk → w1.deref q = w.deref q := by
  unfold create_empty World.adopt_new_storage at h
  by_cases hg : w.allocator.granted = true
  · simp only [hg, if_true, Prod.mk.injEq, ErrorOr.ok.injEq] at h
    obtain ⟨hd, hw⟩ := h
    subst hd hw
    refine ⟨rfl, rfl, ?_, ?_⟩
    · simp [World.deref]
    · intro q hq
      simp [World.deref, hq]
  · simp [hg] at h

/-- The result of `Dictionary.set` is the result of the map's `set`. -/
theorem set_fst (d : Dictionary K V) (key : K) (value : V) (w : World K V) :
    (d.set key value w).1 = ((w.deref d.m_storage).map.set key value w.allocator).1 := by
  unfold set
  split <;> rename_i h <;> simp [h]

/-- After `Dictionary.set` the storage holds the map that the map's `set` left. -/
theorem set_snd (d : Dictionary K V) (key : K) (value : V) (w : World K V) :
    (d.set key value w).2 = w.put_map d.m_storage
      ((w.deref d.m_storage).map.set key value w.allocator).2.1
      ((w.deref d.m_storage).map.set key value w.allocator).2.2 := by
  unfold set
  split <;> rename_i h <;> simp [h]

/-- The result of `Dictionary.ensure_capacity` is the result of the map's. -/
theorem ensure_capacity_fst (d : Dictionary K V) (n : Nat) (w : World K V) :
    (d.ensure_capacity n w).1
      = ((w.deref d.m_storage).map.ensure_capacity n w.allocator).1 := by
  unfold ensure_capacity
  split <;> rename_i h <;> simp [h]

/-- After `Dictionary.ensure_capacity` the storage holds the map that the map's
`ensure_capacity` left. -/
theorem ensure_capacity_snd (d : Dictionary K V) (n : Nat) (w : World K V) :
    (d.ensure_capacity n w).2 = w.put_map d.m_storage
      ((w.deref d.m_storage).map.ensure_capacity n w.allocator).2.1
      ((w.deref d.m_storage).map.ensure_capacity n w.allocator).2.2 := by
  unfold ensure_capacity
  split <;> rename_i h <;> simp [h]

theorem last_value_for_nil (k : K) : last_value_for ([] : List (Entry K V)) k = none := rfl

theorem last_value_for_cons (item : Entry K V) (rest : List (Entry K V)) (k : K) :
    last_value_for (item :: rest) k
      = (last_value_for rest k).or (if k = item.key then some item.value else none) := by
  unfold last_value_for
  rw [List.reverse_cons, List.find?_append]
  cases hrest : List.find? (fun e => decide (e.key = k)) rest.reverse with
  | some e => rfl
  | none =>
    by_cases hk : k = item.key
    · simp [hk]
    · have hk1 : ¬ item.key = k := fun h => hk h.symm
      simp [hk, hk1]

/-- What the loop of `create_with_entries` has done when it ends without error:
lookups give the last value listed for a key and otherwise what they gave before,
unique keys stay unique, and the keys of the list have been added to the keys. -/
theorem create_with_entries_loop_ok (d : Dictionary K V) (l : List (Entry K V))
    (w w1 : World K V) (h : create_with_entries_loop d l w = (.ok (), w1)) :
    (∀ k, d.get k w1 = (last_value_for l k).or (d.get k w))
    ∧ ((w.deref d.m_storage).map.unique_keys → (w1.deref d.m_storage).map.unique_keys)
    ∧ (w1.deref d.m_storage).map.key_list.toFinset
        = (w.deref d.m_storage).map.key_list.toFinset ∪ (l.map (fun e => e.key)).toFinset := by
  induction l generalizing w with
  | nil =>
    simp only [create_with_entries_loop, Prod.mk.injEq, true_and] at h
    subst h
    refine ⟨fun k => ?_, fun hu => hu, ?_⟩
    · rw [last_value_for_nil, Option.none_or]
    · simp
  | cons item rest ih =>
    rw [create_with_entries_loop] at h
    split at h
    · simp at h
    · rename_i u w2 hset
      have hok : (d.set item.key item.value w).1 = .ok () := by rw [hset]
      have hw2 : w2 = (d.set item.key item.value w).2 := by rw [hset]
      rw [set_fst] at hok
      have hmap : (w2.deref d.m_storage).map
          = ((w.deref d.m_storage).map.set item.key item.value w.allocator).2.1 := by
        rw [hw2, set_snd, World.deref_put_map_same]
      obtain ⟨ihget, ihuniq, ihkeys⟩ := ih w2 h
      refine ⟨fun k => ?_, fun hu => ?_, ?_⟩
      · rw [ihget k, last_value_for_cons]
        have hget2 : d.get k w2
            = if k = item.key then some item.value else d.get k w := by
          unfold get
          rw [hmap]
          exact HashMap.get_set _ item.key k item.value _ hok
        rw [hget2]
        cases last_value_for rest k with
        | some v => rfl
        | none =>
          by_cases hk : k = item.key
          · simp [hk]
          · simp [hk]
      · apply ihuniq
        rw [hmap]
        exact HashMap.unique_keys_set _ item.key item.value _ hu
      · rw [ihkeys, hmap, HashMap.key_set_set _ item.key item.value _ hok]
        ext x
        simp only [List.map_cons, List.toFinset_cons, Finset.mem_union, Finset.mem_insert,
          List.mem_toFinset]
        tauto


/-- When the loop of `keys()` ends normally, it has appended the keys of the
entries from the cursor on, in iteration order. -/
theorem keys_loop_some (map : HashMap K V) (fuel i : Nat) (keys keys1 : Array K)
    (a a1 : Allocator)
    (h : keys_loop map fuel (map.cursor_at i) keys a = some (keys1, a1)) :
    keys1.items = keys.items ++ (map.buckets.drop i).map Prod.fst := by
  induction fuel generalizing i keys a with
  | zero =>
    unfold keys_loop at h
    by_cases hi : i < map.buckets.length
    · simp [HashMap.cursor_at, hi, HashMap.end_] at h
    · simp only [HashMap.cursor_at, hi, if_false, HashMap.end_, if_true, Option.some.injEq,
        Prod.mk.injEq] at h
      rw [← h.1, List.drop_of_length_le (by omega)]
      simp
  | succ fuel ih =>
    unfold keys_loop at h
    by_cases hi : i < map.buckets.length
    · have hcur : map.cursor_at i = some i := by simp [HashMap.cursor_at, hi]
      have hne : ¬ (some i : HashMap.IteratorType) = map.end_ := by simp [HashMap.end_]
      rw [hcur] at h
      simp only [hne, if_false, HashMap.deref, List.get?_eq_get hi] at h
      split at h
      · simp at h
      · rename_i u keys2 a2 hpush
        have hok : (keys.push (map.buckets.get ⟨i, hi⟩).1 a).1 = .ok () := by rw [hpush]
        have hitems := Array.items_push keys _ a hok
        rw [hpush] at hitems
        have hadv : map.advance (some i) = map.cursor_at (i + 1) := rfl
        rw [hadv] at h
        rw [ih (i + 1) keys2 a2 h, hitems, List.drop_eq_getElem_cons hi]
        simp only [List.map_cons, List.append_assoc, List.singleton_append,
          List.get_eq_getElem]
    · simp only [HashMap.cursor_at, hi, if_false, HashMap.end_, if_true, Option.some.injEq,
        Prod.mk.injEq] at h
      rw [← h.1, List.drop_of_length_le (by omega)]
      simp

/-- With one unit of fuel per remaining entry and room reserved for their keys,
the loop of `keys()` ends normally, without asking the allocator. -/
theorem keys_loop_total (map : HashMap K V) (fuel i : Nat) (keys : Array K) (a : Allocator)
    (hfuel : map.buckets.length ≤ i + fuel)
    (hroom : keys.size + (map.buckets.length - i) ≤ keys.capacity) :
    keys_loop map fuel (map.cursor_at i) keys a
      = some ({ keys with items := keys.items ++ (map.buckets.drop i).map Prod.fst }, a) := by
  induction fuel generalizing i keys with
  | zero =>
    have hi : ¬ i < map.buckets.length := by omega
    unfold keys_loop
    simp only [HashMap.cursor_at, hi, if_false, HashMap.end_, if_true]
    rw [List.drop_of_length_le (by omega)]
    simp
  | succ fuel ih =>
    unfold keys_loop
    by_cases hi : i < map.buckets.length
    · have hcur : map.cursor_at i = some i := by simp [HashMap.cursor_at, hi]
      have hne : ¬ (some i : HashMap.IteratorType) = map.end_ := by simp [HashMap.end_]
      rw [hcur]
      simp only [hne, if_false, HashMap.deref, List.get?_eq_get hi]
      rw [Array.push_within_capacity keys _ a (by omega)]
      simp only
      have hadv : map.advance (some i) = map.cursor_at (i + 1) := rfl
      rw [hadv, ih (i + 1) _ (by omega) (by simp [Array.size] at hroom ⊢; omega),
        List.drop_eq_getElem_cons hi]
      simp only [List.map_cons, List.append_assoc, List.singleton_append,
        List.get_eq_getElem]
    · simp only [HashMap.cursor_at, hi, if_false, HashMap.end_, if_true]
      rw [List.drop_of_length_le (by omega)]
      simp

/-- A successful `keys()` returns the keys of the map in iteration order and
leaves every storage object as it was. -/
theorem keys_ok (d : Dictionary K V) (w w1 : World K V) (arr : Array K)
    (h : d.keys w = some (.ok arr, w1)) :
    arr.items = (w.deref d.m_storage).map.key_list ∧ ∀ q, w1.deref q = w.deref q := by
  unfold keys at h
  split at h
  · simp at h
  · rename_i u keys0 a hres
    split at h
    · simp at h
    · rename_i keys1 a1 hloop
      simp only [Option.some.injEq, Prod.mk.injEq, ErrorOr.ok.injEq] at h
      obtain ⟨harr, hw⟩ := h
      subst harr hw
      rw [HashMap.begin_eq_cursor_at] at hloop
      have hitems := keys_loop_some _ _ 0 keys0 keys1 a a1 hloop
      have hzero : keys0.items = [] := by
        have h0 := Array.items_ensure_capacity (Array.empty : Array K)
          (w.deref d.m_storage).map.size w.allocator
        rw [hres] at h0
        exact h0
      rw [hzero, List.nil_append, List.drop_zero] at hitems
      exact ⟨hitems, fun q => rfl⟩

/-- When the allocator grants the reservation of the result sequence, `keys()`
returns normally with the keys of the map: the fuel given to its loop suffices
and no `push` has to ask the allocator. -/
theorem keys_of_granted (d : Dictionary K V) (w : World K V)
    (hg : w.allocator.granted = true) :
    d.keys w = some (.ok { items := (w.deref d.m_storage).map.key_list,
                           capacity := (w.deref d.m_storage).map.size },
                     { w with allocator := w.allocator.advance }) := by
  unfold keys Array.ensure_capacity
  simp only [hg, if_true]
  rw [HashMap.begin_eq_cursor_at,
    keys_loop_total _ _ 0 _ _ (by simp [HashMap.size]) (by simp [Array.size, Array.empty, HashMap.size])]
  simp [Array.empty, HashMap.key_list]

/-- When the allocator refuses the reservation of the result sequence, `keys()`
returns the error. -/
theorem keys_of_refused (d : Dictionary K V) (w : World K V)
    (hg : w.allocator.granted = false) :
    d.keys w = some (.error .ENOMEM, { w with allocator := w.allocator.advance }) := by
  unfold keys Array.ensure_capacity
  simp [hg]

/-- All the calls of `next()` on a fresh iterator: as many as the map has entries
return these entries in iteration order, the next one returns empty, and the
iterator is exhausted. -/
theorem next_n_iterator (d : Dictionary K V) (w : World K V) :
    DictionaryIterator.next_n (d.iterator w).2 (d.size w + 1) (d.iterator w).1
      = some ((w.deref d.m_storage).map.buckets.map some ++ [none],
          { m_storage := d.m_storage, m_iterator := none }) := by
  have hmap : ((w.ref d.m_storage).deref d.m_storage).map = (w.deref d.m_storage).map :=
    World.map_deref_ref w d.m_storage d.m_storage
  have h := DictionaryIterator.next_n_from_cursor d.m_storage (w.ref d.m_storage)
    (d.size w) 0 (by rw [hmap]; simp [size, HashMap.size])
  rw [hmap, List.drop_zero, ← HashMap.begin_eq_cursor_at] at h
  unfold iterator DictionaryIterator.create
  rw [hmap]
  exact h

/-- A sequence of `set` calls that leaves the dictionary with no more entries than
the capacity of its map: every call succeeds and none asks the allocator. -/
theorem set_each_within_capacity (d : Dictionary K V) (l : List (Entry K V))
    (w : World K V) (n : Nat)
    (hu : (w.deref d.m_storage).map.unique_keys)
    (hcap : n ≤ (w.deref d.m_storage).map.capacity)
    (hcount : ((w.deref d.m_storage).map.key_list ++ l.map (fun e => e.key)).toFinset.card
      ≤ n) :
    (∀ r ∈ (d.set_each l w).1, r = .ok ())
      ∧ (d.set_each l w).2.allocator = w.allocator := by
  induction l generalizing w with
  | nil => exact ⟨fun r hr => by simp [set_each] at hr, rfl⟩
  | cons item rest ih =>
    have hsub : insert item.key (w.deref d.m_storage).map.key_list.toFinset
        ⊆ ((w.deref d.m_storage).map.key_list
            ++ (item :: rest).map (fun e => e.key)).toFinset := by
      intro x hx
      simp only [Finset.mem_insert, List.mem_toFinset] at hx
      simp only [List.map_cons, List.toFinset_append, List.toFinset_cons, Finset.mem_union,
        Finset.mem_insert, List.mem_toFinset]
      tauto
    have hroom : (insert item.key (w.deref d.m_storage).map.key_list.toFinset).card
        ≤ (w.deref d.m_storage).map.capacity :=
      le_trans (le_trans (Finset.card_le_card hsub) hcount) hcap
    obtain ⟨hok, halloc, hsame⟩ :=
      HashMap.set_within_capacity _ item.key item.value w.allocator hu hroom
    have hmap : ((d.set item.key item.value w).2.deref d.m_storage).map
        = ((w.deref d.m_storage).map.set item.key item.value w.allocator).2.1 := by
      rw [set_snd, World.deref_put_map_same]
    have halloc2 : (d.set item.key item.value w).2.allocator = w.allocator := by
      rw [set_snd]
      exact halloc
    have hcount2 : (((d.set item.key item.value w).2.deref d.m_storage).map.key_list
        ++ rest.map (fun e => e.key)).toFinset.card ≤ n := by
      have hset : (((d.set item.key item.value w).2.deref d.m_storage).map.key_list
          ++ rest.map (fun e => e.key)).toFinset
          = ((w.deref d.m_storage).map.key_list
              ++ (item :: rest).map (fun e => e.key)).toFinset := by
        rw [List.toFinset_append, hmap, HashMap.key_set_set _ item.key item.value _ hok]
        ext x
        simp only [List.map_cons, List.toFinset_append, List.toFinset_cons, Finset.mem_union,
          Finset.mem_insert, List.mem_toFinset]
        tauto
      rw [hset]
      exact hcount
    obtain ⟨ihok, ihalloc⟩ := ih (d.set item.key item.value w).2
      (by rw [hmap]; exact HashMap.unique_keys_set _ item.key item.value _ hu)
      (by rw [hmap, hsame]; exact hcap) hcount2
    constructor
    · intro r hr
      simp only [set_each, List.mem_cons] at hr
      rcases hr with hr | hr
      · rw [hr, set_fst]
        exact hok
      · exact ihok r hr
    · simp only [set_each]
      rw [ihalloc, halloc2]

/-- After a successful `ensure_capacity(n)`, a sequence of `set` calls that leaves
the dictionary with at most `n` entries: every call succeeds. -/
theorem set_each_after_ensure_capacity (d : Dictionary K V) (w w1 : World K V) (n : Nat)
    (hu : (w.deref d.m_storage).map.unique_keys)
    (hres : d.ensure_capacity n w = (.ok (), w1))
    (l : List (Entry K V))
    (hcount : ((w.deref d.m_storage).map.key_list ++ l.map (fun e => e.key)).toFinset.card
      ≤ n) :
    ∀ r ∈ (d.set_each l w1).1, r = .ok () := by
  have hok : (d.ensure_capacity n w).1 = .ok () := by rw [hres]
  have hw1 : w1 = (d.ensure_capacity n w).2 := by rw [hres]
  rw [ensure_capacity_fst] at hok
  have hmap : (w1.deref d.m_storage).map
      = ((w.deref d.m_storage).map.ensure_capacity n w.allocator).2.1 := by
    rw [hw1, ensure_capacity_snd, World.deref_put_map_same]
  have hkeys : (w1.deref d.m_storage).map.key_list = (w.deref d.m_storage).map.key_list := by
    rw [hmap]
    unfold HashMap.key_list
    rw [HashMap.buckets_ensure_capacity]
  refine (set_each_within_capacity d l w1 n ?_ ?_ ?_).1
  · rw [hmap]
    exact HashMap.unique_keys_ensure_capacity _ n _ hu
  · rw [hmap]
    exact HashMap.capacity_ensure_capacity _ n _ hok
  · rw [hkeys]
    exact hcount

/-- When every `set` of the sequence succeeds, the loop of `create_with_entries`
runs through the whole list and ends without error in the same world. -/
theorem create_with_entries_loop_of_set_each (d : Dictionary K V) (l : List (Entry K V))
    (w : World K V) (h : ∀ r ∈ (d.set_each l w).1, r = .ok ()) :
    create_with_entries_loop d l w = (.ok (), (d.set_each l w).2) := by
  induction l generalizing w with
  | nil => rfl
  | cons item rest ih =>
    have hfirst : (d.set item.key item.value w).1 = .ok () :=
      h _ (by simp [set_each])
    have hrest : ∀ r ∈ (d.set_each rest (d.set item.key item.value w).2).1, r = .ok () :=
      fun r hr => h r (by simp only [set_each, List.mem_cons]; exact Or.inr hr)
    rw [create_with_entries_loop]
    split
    · rename_i e w1 hset
      rw [hset] at hfirst
      simp at hfirst
    · rename_i u w1 hset
      have hw1 : w1 = (d.set item.key item.value w).2 := by rw [hset]
      rw [hw1, ih _ hrest]
      rfl

/-- Destroying handles on a storage object that hold fewer references than it has
leaves the object in place, its map as it was, with that many references less. -/
theorem drop_all_shared (p : Nat) (hs : List (Dictionary K V)) (w : World K V)
    (hall : ∀ h ∈ hs, h.m_storage = p) (hlen : hs.length < (w.deref p).ref_count) :
    ((drop_all hs w).deref p).map = (w.deref p).map
      ∧ ((drop_all hs w).deref p).ref_count = (w.deref p).ref_count - hs.length := by
  induction hs generalizing w with
  | nil => exact ⟨rfl, rfl⟩
  | cons h rest ih =>
    have hp : h.m_storage = p := hall h (List.mem_cons_self h rest)
    have hlen1 : rest.length + 1 < (w.deref p).ref_count := hlen
    have hstep : (h.drop w).deref p
        = { w.deref p with ref_count := (w.deref p).ref_count - 1 } := by
      unfold drop
      rw [hp]
      exact World.deref_unref_shared w p (by omega)
    have hunfold : drop_all (h :: rest) w = drop_all rest (h.drop w) := rfl
    obtain ⟨ihmap, ihcount⟩ := ih (h.drop w)
      (fun h1 hh1 => hall h1 (List.mem_cons_of_mem h hh1))
      (by rw [hstep]; simp only; omega)
    rw [hunfold, ihmap, ihcount, hstep]
    simp only [List.length_cons]
    exact ⟨trivial, by omega⟩

/-- A `set` that fails leaves every lookup through the handle as it was. -/
theorem get_of_set_error (d : Dictionary K V) (key k : K) (value : V) (w wf : World K V)
    (e : Error) (h : d.set key value w = (.error e, wf)) : d.get k wf = d.get k w := by
  have hfst : (d.set key value w).1 = .error e := by rw [h]
  have hwf : wf = (d.set key value w).2 := by rw [h]
  rw [set_fst] at hfst
  unfold get
  rw [hwf, set_snd, World.deref_put_map_same,
    HashMap.set_error_unchanged _ key value _ e hfst]

/-- When the loop of `create_with_entries` ends with an error, the list splits at
an item whose `set` failed with that error: the items before it were all set, and
the world is the one that failing `set` left. -/
theorem create_with_entries_loop_error (d : Dictionary K V) (l : List (Entry K V))
    (w wf : World K V) (e : Error) (h : create_with_entries_loop d l w = (.error e, wf)) :
    ∃ pre item post w3, l = pre ++ item :: post
      ∧ create_with_entries_loop d pre w = (.ok (), w3)
      ∧ d.set item.key item.value w3 = (.error e, wf) := by
  induction l generalizing w with
  | nil => simp [create_with_entries_loop] at h
  | cons first rest ih =>
    rw [create_with_entries_loop] at h
    split at h
    · rename_i e1 w2 hset
      obtain ⟨he, hw⟩ := Prod.mk.inj h
      have he1 : e1 = e := ErrorOr.error.inj he
      subst he1 hw
      exact ⟨[], first, rest, w, rfl, rfl, hset⟩
    · rename_i u w2 hset
      obtain ⟨pre, item, post, w3, hl, hpre, hfail⟩ := ih w2 h
      refine ⟨first :: pre, item, post, w3, by rw [hl]; rfl, ?_, hfail⟩
      rw [create_with_entries_loop, hset]
      exact hpre

/-- When the items before some item are all set and the `set` of that item fails,
the loop of `create_with_entries` ends there with that error. -/
theorem create_with_entries_loop_stops (d : Dictionary K V) (pre post : List (Entry K V))
    (item : Entry K V) (w w3 wf : World K V) (e : Error)
    (hpre : create_with_entries_loop d pre w = (.ok (), w3))
    (hfail : d.set item.key item.value w3 = (.error e, wf)) :
    create_with_entries_loop d (pre ++ item :: post) w = (.error e, wf) := by
  induction pre generalizing w with
  | nil =>
    simp only [create_with_entries_loop, Prod.mk.injEq, true_and] at hpre
    subst hpre
    rw [List.nil_append, create_with_entries_loop, hfail]
  | cons first rest ih =>
    rw [create_with_entries_loop] at hpre
    split at hpre
    · simp at hpre
    · rename_i u w2 hset
      rw [List.cons_append, create_with_entries_loop, hset]
      exact ih w2 hpre

theorem ref_count_set (d : Dictionary K V) (key : K) (value : V) (w : World K V) (q : Nat) :
    ((d.set key value w).2.deref q).ref_count = (w.deref q).ref_count := by
  rw [set_snd, World.ref_count_put_map]

theorem ref_count_ensure_capacity (d : Dictionary K V) (n : Nat) (w : World K V) (q : Nat) :
    ((d.ensure_capacity n w).2.deref q).ref_count = (w.deref q).ref_count := by
  rw [ensure_capacity_snd, World.ref_count_put_map]

theorem ref_count_create_with_entries_loop (d : Dictionary K V) (l : List (Entry K V))
    (w : World K V) (q : Nat) :
    ((create_with_entries_loop d l w).2.deref q).ref_count = (w.deref q).ref_count := by
  induction l generalizing w with
  | nil => rfl
  | cons item rest ih =>
    rw [create_with_entries_loop]
    split
    · rename_i e w1 hset
      have hw1 : w1 = (d.set item.key item.value w).2 := by rw [hset]
      rw [hw1, ref_count_set]
    · rename_i u w1 hset
      have hw1 : w1 = (d.set item.key item.value w).2 := by rw [hset]
      rw [ih w1, hw1, ref_count_set]

/-- The storage object a successful `create_empty` returns has one reference. -/
theorem create_empty_ref_count (w w1 : World K V) (d : Dictionary K V)
    (h : create_empty w = (.ok d, w1)) : (w1.deref d.m_storage).ref_count = 1 := by
  unfold create_empty World.adopt_new_storage at h
  by_cases hg : w.allocator.granted = true
  · simp only [hg, if_true, Prod.mk.injEq, ErrorOr.ok.injEq] at h
    obtain ⟨hd, hw⟩ := h
    subst hd hw
    simp [World.deref]
  · simp [hg] at h

/-- A `set` or `remove` of another key leaves `get(k)` as it was. -/
theorem get_mutate_other_key (d : Dictionary K V) (k : K) (m : Mutation K V)
    (hm : m.set_or_remove_of_other_key k) (w : World K V) :
    d.get k (d.mutate m w) = d.get k w := by
  cases m with
  | set key value =>
    have hne : k ≠ key := fun h => hm h.symm
    simp only [mutate, get, set_snd, World.deref_put_map_same]
    exact HashMap.get_set_other _ key k value _ hne
  | remove key =>
    have hne : k ≠ key := fun h => hm h.symm
    simp only [mutate, get, remove, World.deref_put_map_same]
    exact HashMap.get_remove_other _ key k hne
  | clear => exact absurd hm (by simp [Mutation.set_or_remove_of_other_key])
  | ensure_capacity n => exact absurd hm (by simp [Mutation.set_or_remove_of_other_key])

/-- A sequence of `set` and `remove` calls on other keys leaves `get(k)` as it was. -/
theorem get_mutate_all_other_keys (d : Dictionary K V) (k : K) (ms : List (Mutation K V))
    (hms : ∀ m ∈ ms, m.set_or_remove_of_other_key k) (w : World K V) :
    d.get k (d.mutate_all ms w) = d.get k w := by
  induction ms generalizing w with
  | nil => rfl
  | cons m rest ih =>
    have hrest : ∀ m1 ∈ rest, m1.set_or_remove_of_other_key k :=
      fun m1 h1 => hms m1 (List.mem_cons_of_mem m h1)
    have hstep : d.mutate_all (m :: rest) w = d.mutate_all rest (d.mutate m w) := rfl
    rw [hstep, ih hrest, get_mutate_other_key d k m (hms m (List.mem_cons_self m rest))]

end Dictionary

/-! ## Addresses are handed out in increasing order -/

namespace World

variable {K V : Type}

theorem brk_put_map (w : World K V) (p : Nat) (map : HashMap K V) (a : Allocator) :
    (w.put_map p map a).brk = w.brk := rfl

theorem brk_ref (w : World K V) (p : Nat) : (w.ref p).brk = w.brk := rfl

theorem brk_unref (w : World K V) (p : Nat) : (w.unref p).brk = w.brk := by
  unfold unref
  split <;> rfl

end World

namespace Dictionary

variable {K V : Type} [DecidableEq K]

/-- A mutating member leaves the first unused address where it is. -/
theorem brk_mutate (d : Dictionary K V) (m : Mutation K V) (w : World K V) :
    (d.mutate m w).brk = w.brk := by
  cases m with
  | set key value => simp only [mutate, set_snd, World.brk_put_map]
  | remove key => rfl
  | clear => rfl
  | ensure_capacity n => simp only [mutate, ensure_capacity_snd, World.brk_put_map]

/-- The factory `create_empty` never moves the first unused address down. -/
theorem brk_create_empty (w : World K V) : w.brk ≤ (create_empty w).2.brk := by
  unfold create_empty World.adopt_new_storage
  by_cases hg : w.allocator.granted = true
  · simp [hg]
  · simp [hg]

end Dictionary

/-! ## The data invariant is kept -/

namespace World

variable {K V : Type} [DecidableEq K]

/-- No key occurs twice in the initial world. -/
theorem unique_keys_initial (outcomes : Nat → Bool) :
    (World.initial outcomes : World K V).unique_keys :=
  fun _ => List.nodup_nil

theorem unique_keys_put_map (w : World K V) (p : Nat) (map : HashMap K V) (a : Allocator)
    (h : w.unique_keys) (hmap : map.unique_keys) : (w.put_map p map a).unique_keys := by
  intro q
  by_cases hq : q = p
  · rw [hq, deref_put_map_same]
    exact hmap
  · rw [deref_put_map_other w p q map a hq]
    exact h q

/-- Copying a reference keeps the keys unique. -/
theorem unique_keys_ref (w : World K V) (p : Nat) (h : w.unique_keys) :
    (w.ref p).unique_keys := by
  intro q
  rw [map_deref_ref]
  exact h q

/-- Releasing a reference keeps the keys unique. -/
theorem unique_keys_unref (w : World K V) (p : Nat) (h : w.unique_keys) :
    (w.unref p).unique_keys := by
  intro q
  rcases map_deref_unref w p q with hm | hm
  · rw [hm]
    exact h q
  · rw [hm]
    exact HashMap.unique_keys_empty

end World

namespace Dictionary

variable {K V : Type} [DecidableEq K]

/-- Every mutating member keeps the keys unique. -/
theorem unique_keys_mutate (d : Dictionary K V) (m : Mutation K V) (w : World K V)
    (h : w.unique_keys) : (d.mutate m w).unique_keys := by
  cases m with
  | set key value =>
    simp only [mutate, set_snd]
    exact World.unique_keys_put_map w _ _ _ h (HashMap.unique_keys_set _ key value _ (h _))
  | remove key =>
    exact World.unique_keys_put_map w _ _ _ h (HashMap.unique_keys_remove _ key (h _))
  | clear =>
    exact World.unique_keys_put_map w _ _ _ h HashMap.unique_keys_empty
  | ensure_capacity n =>
    simp only [mutate, ensure_capacity_snd]
    exact World.unique_keys_put_map w _ _ _ h
      (HashMap.unique_keys_ensure_capacity _ n _ (h _))

/-- The factory `create_empty` keeps the keys unique, whether it succeeds or fails. -/
theorem unique_keys_create_empty (w : World K V) (h : w.unique_keys) :
    (create_empty w).2.unique_keys := by
  unfold create_empty World.adopt_new_storage
  by_cases hg : w.allocator.granted = true
  · simp only [hg, if_true]
    intro q
    by_cases hq : q = w.brk
    · simp only [World.deref, hq, if_true]
      exact HashMap.unique_keys_empty
    · simp only [World.deref, hq, if_false]
      exact h q
  · simp only [hg, Bool.false_eq_true, if_false]
    exact h

/-- The loop of `create_with_entries` keeps the keys unique. -/
theorem unique_keys_create_with_entries_loop (d : Dictionary K V) (l : List (Entry K V))
    (w : World K V) (h : w.unique_keys) : (create_with_entries_loop d l w).2.unique_keys := by
  induction l generalizing w with
  | nil => exact h
  | cons item rest ih =>
    have hstep := unique_keys_mutate d (.set item.key item.value) w h
    simp only [mutate] at hstep
    rw [create_with_entries_loop]
    split
    · rename_i e w1 hset
      rw [hset] at hstep
      exact hstep
    · rename_i u w1 hset
      rw [hset] at hstep
      exact ih w1 hstep

/-- The factory `create_with_entries` keeps the keys unique, whether it succeeds
or fails. -/
theorem unique_keys_create_with_entries (list : List (Entry K V)) (w : World K V)
    (h : w.unique_keys) : (create_with_entries list w).2.unique_keys := by
  have h1 := unique_keys_create_empty w h
  unfold create_with_entries
  split
  · rename_i e w1 hcreate
    rw [hcreate] at h1
    exact h1
  · rename_i d w1 hcreate
    rw [hcreate] at h1
    have h2 := unique_keys_mutate d (.ensure_capacity list.length) w1 h1
    simp only [mutate] at h2
    split
    · rename_i e w2 hreserve
      rw [hreserve] at h2
      exact World.unique_keys_unref w2 _ h2
    · rename_i u w2 hreserve
      rw [hreserve] at h2
      have h3 := unique_keys_create_with_entries_loop d list w2 h2
      split
      · rename_i e w3 hloop
        rw [hloop] at h3
        exact World.unique_keys_unref w3 _ h3
      · rename_i u1 w3 hloop
        rw [hloop] at h3
        exact h3

/-- A successful `keys()` keeps the keys unique. -/
theorem unique_keys_keys (d : Dictionary K V) (w w1 : World K V) (arr : Array K)
    (h : w.unique_keys) (hk : d.keys w = some (.ok arr, w1)) : w1.unique_keys := by
  intro q
  rw [(keys_ok d w w1 arr hk).2 q]
  exact h q

end Dictionary

/-! ## The claims -/

section Claims

variable {K V : Type} [DecidableEq K]

/-- C1 (sharing): let `b` be a copy of the handle `a`.  If `a.set(k, v)` succeeds,
then `b.get(k)` returns `v`. -/
theorem sharing_set_visible_through_copy (a : Dictionary K V) (w : World K V)
    (k : K) (v : V)
    (h : (a.set k v (a.copy w).2).1 = .ok ()) :
    (a.copy w).1.get k (a.set k v (a.copy w).2).2 = some v := by
  rw [Dictionary.set_fst] at h
  rw [Dictionary.set_snd]
  simp only [Dictionary.get, Dictionary.copy, World.deref_put_map_same]
  exact HashMap.get_set_self _ k v _ h

/-- C1, at a concrete input: on a dictionary created in a world whose allocator
grants every request, setting key 1 to 10 through the handle shows through its copy. -/
theorem sharing_set_visible_through_copy_witness :
    (Example.d0.set 1 10 (Example.d0.copy Example.w1).2).1 = .ok ()
    ∧ (Example.d0.copy Example.w1).1.get 1
        (Example.d0.set 1 10 (Example.d0.copy Example.w1).2).2 = some 10 :=
  ⟨by decide, sharing_set_visible_through_copy Example.d0 Example.w1 1 10 (by decide)⟩

/-- C2 (isolation after independent creation): let `a` and `b` come from two
separate successful `create_empty()` calls, the second made in any later world
(one whose first unused address is not below the one the first call left).  Then
in every world a `set`, `remove`, `clear` or `ensure_capacity` through one of the
handles, successful or not, leaves `size()`, `is_empty()`, `contains(k)` and
`get(k)` of the other handle unchanged, for every key `k`. -/
theorem isolation_after_independent_creation (w0 w1 w1' w2 : World K V)
    (a b : Dictionary K V)
    (ha : Dictionary.create_empty w0 = (.ok a, w1))
    (hlater : w1.brk ≤ w1'.brk)
    (hb : Dictionary.create_empty w1' = (.ok b, w2))
    (m : Dictionary.Mutation K V) (w : World K V) (k : K) :
    (b.size (a.mutate m w) = b.size w ∧ b.is_empty (a.mutate m w) = b.is_empty w
      ∧ b.contains k (a.mutate m w) = b.contains k w
      ∧ b.get k (a.mutate m w) = b.get k w)
    ∧ (a.size (b.mutate m w) = a.size w ∧ a.is_empty (b.mutate m w) = a.is_empty w
      ∧ a.contains k (b.mutate m w) = a.contains k w
      ∧ a.get k (b.mutate m w) = a.get k w) := by
  obtain ⟨ha1, ha2, -, -⟩ := Dictionary.create_empty_ok w0 w1 a ha
  obtain ⟨hb1, -, -, -⟩ := Dictionary.create_empty_ok w1' w2 b hb
  have hne : b.m_storage ≠ a.m_storage := by omega
  have hab := Dictionary.deref_mutate_other a m w b.m_storage hne
  have hba := Dictionary.deref_mutate_other b m w a.m_storage (Ne.symm hne)
  simp only [Dictionary.size, Dictionary.is_empty, Dictionary.contains, Dictionary.get,
    hab, hba, and_self]

/-- C2, at a concrete input: two dictionaries created one after the other in a
world whose allocator grants every request; setting key 1 through either of them
leaves the other as it was. -/
theorem isolation_after_independent_creation_witness :
    (Dictionary.create_empty Example.w0 = (.ok Example.d0, Example.w1)
      ∧ Example.w1.brk ≤ Example.w1.brk
      ∧ Dictionary.create_empty Example.w1 = (.ok Example.d1, Example.w2))
    ∧ (Example.d1.size (Example.d0.mutate (.set 1 10) Example.w2) = Example.d1.size Example.w2
      ∧ Example.d1.is_empty (Example.d0.mutate (.set 1 10) Example.w2)
          = Example.d1.is_empty Example.w2
      ∧ Example.d1.contains 1 (Example.d0.mutate (.set 1 10) Example.w2)
          = Example.d1.contains 1 Example.w2
      ∧ Example.d1.get 1 (Example.d0.mutate (.set 1 10) Example.w2)
          = Example.d1.get 1 Example.w2)
    ∧ (Example.d0.size (Example.d1.mutate (.set 1 10) Example.w2) = Example.d0.size Example.w2
      ∧ Example.d0.is_empty (Example.d1.mutate (.set 1 10) Example.w2)
          = Example.d0.is_empty Example.w2
      ∧ Example.d0.contains 1 (Example.d1.mutate (.set 1 10) Example.w2)
          = Example.d0.contains 1 Example.w2
      ∧ Example.d0.get 1 (Example.d1.mutate (.set 1 10) Example.w2)
          = Example.d0.get 1 Example.w2) :=
  ⟨⟨rfl, Nat.le_refl _, rfl⟩,
    isolation_after_independent_creation Example.w0 Example.w1 Example.w1 Example.w2
      Example.d0 Example.d1 rfl (Nat.le_refl _) rfl (.set 1 10) Example.w2 1⟩

/-- C3 (round trip): after `d.set(k, v)` has succeeded, `d.get(k)` returns `v` and
`d.contains(k)` is true, and `d.get(k)` still returns `v` after any later sequence
of `set` calls (successful or failed) and `remove` calls on keys different from `k`. -/
theorem round_trip_set_get (d : Dictionary K V) (w : World K V) (k : K) (v : V)
    (h : (d.set k v w).1 = .ok ())
    (ms : List (Dictionary.Mutation K V))
    (hms : ∀ m ∈ ms, m.set_or_remove_of_other_key k) :
    d.get k (d.set k v w).2 = some v
    ∧ d.contains k (d.set k v w).2 = true
    ∧ d.get k (d.mutate_all ms (d.set k v w).2) = some v := by
  rw [Dictionary.set_fst] at h
  have hget : d.get k (d.set k v w).2 = some v := by
    rw [Dictionary.set_snd]
    simp only [Dictionary.get, World.deref_put_map_same]
    exact HashMap.get_set_self _ k v _ h
  refine ⟨hget, ?_, ?_⟩
  · rw [Dictionary.set_snd]
    simp only [Dictionary.contains, World.deref_put_map_same]
    exact HashMap.contains_set_self _ k v _ h
  · rw [Dictionary.get_mutate_all_other_keys d k ms hms, hget]

/-- C3, at a concrete input: key 1 is set to 10, then key 2 is set, key 3 is
removed and key 2 is set again; `get(1)` still returns 10. -/
theorem round_trip_set_get_witness :
    ((Example.d0.set 1 10 Example.w1).1 = .ok ()
      ∧ ∀ m ∈ [Dictionary.Mutation.set 2 20, .remove 3, .set 2 21],
          Dictionary.Mutation.set_or_remove_of_other_key 1 m)
    ∧ Example.d0.get 1 (Example.d0.set 1 10 Example.w1).2 = some 10
    ∧ Example.d0.contains 1 (Example.d0.set 1 10 Example.w1).2 = true
    ∧ Example.d0.get 1 (Example.d0.mutate_all [.set 2 20, .remove 3, .set 2 21]
        (Example.d0.set 1 10 Example.w1).2) = some 10 :=
  ⟨⟨by decide, by simp [Dictionary.Mutation.set_or_remove_of_other_key]⟩,
    round_trip_set_get Example.d0 Example.w1 1 10 (by decide)
      [.set 2 20, .remove 3, .set 2 21]
      (by simp [Dictionary.Mutation.set_or_remove_of_other_key])⟩

/-- C4 (removal): `d.remove(k)` returns true if and only if `k` was present just
before the call; after the call `d.contains(k)` is false and `d.get(k)` is empty,
and a `d.remove(k)` that follows immediately returns false. -/
theorem remove_reports_presence_and_removes (d : Dictionary K V) (w : World K V) (k : K) :
    ((d.remove k w).1 = true ↔ d.contains k w = true)
    ∧ d.contains k (d.remove k w).2 = false
    ∧ d.get k (d.remove k w).2 = none
    ∧ (d.remove k (d.remove k w).2).1 = false := by
  have hc : d.contains k (d.remove k w).2 = false := by
    simp only [Dictionary.contains, Dictionary.remove, World.deref_put_map_same]
    exact HashMap.contains_remove_self _ k
  refine ⟨?_, hc, ?_, ?_⟩
  · simp only [Dictionary.remove, Dictionary.contains, HashMap.remove_fst]
  · exact HashMap.get_eq_none_of_not_contains _ k hc
  · have h2 : (d.remove k (d.remove k w).2).1 = d.contains k (d.remove k w).2 := by
      simp only [Dictionary.remove, Dictionary.contains, HashMap.remove_fst]
    rw [h2, hc]

/-- C5 (batch construction, last write wins): if `create_with_entries(list)`
succeeds, then for every key `k` the result's `get(k)` is the value of the last
entry of the list whose key is `k` (empty if there is none), and the result's
`size()` is the number of distinct keys of the list. -/
theorem create_with_entries_last_write_wins (list : List (Dictionary.Entry K V))
    (w w1 : World K V) (d : Dictionary K V)
    (h : Dictionary.create_with_entries list w = (.ok d, w1)) (k : K) :
    d.get k w1 = last_value_for list k ∧ d.size w1 = distinct_key_count list := by
  unfold Dictionary.create_with_entries at h
  split at h
  · simp at h
  · rename_i dictionary w2 hcreate
    split at h
    · simp at h
    · rename_i u w3 hreserve
      split at h
      · simp at h
      · rename_i u1 w4 hloop
        simp only [Prod.mk.injEq, ErrorOr.ok.injEq] at h
        obtain ⟨hd, hw⟩ := h
        subst hd hw
        obtain ⟨-, -, hempty, -⟩ := Dictionary.create_empty_ok w w2 dictionary hcreate
        have hw3 : w3 = (dictionary.ensure_capacity list.length w2).2 := by rw [hreserve]
        have hbuckets : (w3.deref dictionary.m_storage).map.buckets = [] := by
          rw [hw3, Dictionary.ensure_capacity_snd, World.deref_put_map_same,
            HashMap.buckets_ensure_capacity, hempty]
          rfl
        obtain ⟨hget, huniq, hkeys⟩ :=
          Dictionary.create_with_entries_loop_ok dictionary list w3 w4 hloop
        constructor
        · rw [hget k]
          have hnone : dictionary.get k w3 = none := by
            simp [Dictionary.get, HashMap.get, hbuckets]
          rw [hnone, Option.or_none]
        · have hu : (w3.deref dictionary.m_storage).map.unique_keys := by
            simp [HashMap.unique_keys, HashMap.key_list, hbuckets]
          have hsize := HashMap.size_eq_card_of_unique_keys _ (huniq hu)
          unfold Dictionary.size
          rw [hsize, hkeys]
          simp [HashMap.key_list, hbuckets, distinct_key_count]

/-- C5, at a concrete input: the entries (1, 10), (1, 11), (2, 12) give a
dictionary of size 2 in which `get(1)` is 11 and `get(2)` is 12. -/
theorem create_with_entries_last_write_wins_witness :
    Dictionary.create_with_entries Example.entries Example.w0
        = (.ok Example.d0, Example.w_batch)
    ∧ Example.d0.get 1 Example.w_batch = some 11
    ∧ Example.d0.get 2 Example.w_batch = some 12
    ∧ Example.d0.size Example.w_batch = 2 :=
  ⟨rfl,
    (create_with_entries_last_write_wins Example.entries Example.w0 Example.w_batch
      Example.d0 (by rfl) 1).1,
    (create_with_entries_last_write_wins Example.entries Example.w0 Example.w_batch
      Example.d0 (by rfl) 2).1,
    (create_with_entries_last_write_wins Example.entries Example.w0 Example.w_batch
      Example.d0 (by rfl) 1).2⟩

/-- C6 (failure of batch construction): `create_with_entries(list)` returns an
error exactly when `create_empty` fails, or `create_empty` succeeds and the
reservation of `list.size()` entries fails, or both succeed and the `set` of some
entry fails after the entries before it were all set.  The error is the one of
that first failing step, the world is the one that step left with the local
dictionary destroyed (so no later entry is inserted), and the storage that was
created is gone: no reference to it remains and its map is destroyed.

In the model of the map a `set` cannot fail right after a granted reservation for
the whole list, so the part on a failing `set` is also stated for the loop of
`create_with_entries` run on any dictionary in any world, where a `set` can fail:
the loop ends with an error exactly when the `set` of some entry fails after the
entries before it were all set, with the error and the world of that `set`; and
then the lookups are those the entries before the failing one have made, so
neither the failing entry nor a later one is inserted. -/
theorem create_with_entries_fails_at_first_failing_step (list : List (Dictionary.Entry K V))
    (w wf : World K V) (e : Error) :
    (Dictionary.create_with_entries list w = (.error e, wf) ↔
      Dictionary.create_empty w = (.error e, wf)
      ∨ (∃ d w1 w2, Dictionary.create_empty w = (.ok d, w1)
          ∧ d.ensure_capacity list.length w1 = (.error e, w2)
          ∧ wf = d.drop w2)
      ∨ (∃ d w1 w2 pre item post w3 w4, Dictionary.create_empty w = (.ok d, w1)
          ∧ d.ensure_capacity list.length w1 = (.ok (), w2)
          ∧ list = pre ++ item :: post
          ∧ Dictionary.create_with_entries_loop d pre w2 = (.ok (), w3)
          ∧ d.set item.key item.value w3 = (.error e, w4)
          ∧ wf = d.drop w4))
    ∧ (∀ d w1, Dictionary.create_empty w = (.ok d, w1) →
        Dictionary.create_with_entries list w = (.error e, wf) →
        (wf.deref d.m_storage).ref_count = 0
          ∧ (wf.deref d.m_storage).map = HashMap.empty)
    ∧ (∀ (d : Dictionary K V) (l : List (Dictionary.Entry K V)) (u uf : World K V),
        (Dictionary.create_with_entries_loop d l u = (.error e, uf) ↔
          ∃ pre item post u3, l = pre ++ item :: post
            ∧ Dictionary.create_with_entries_loop d pre u = (.ok (), u3)
            ∧ d.set item.key item.value u3 = (.error e, uf))
        ∧ (∀ pre item post u3, l = pre ++ item :: post →
            Dictionary.create_with_entries_loop d pre u = (.ok (), u3) →
            d.set item.key item.value u3 = (.error e, uf) →
            ∀ k, d.get k uf = (last_value_for pre k).or (d.get k u))) := by
  have hforward : Dictionary.create_with_entries list w = (.error e, wf) →
      Dictionary.create_empty w = (.error e, wf)
      ∨ (∃ d w1 w2, Dictionary.create_empty w = (.ok d, w1)
          ∧ d.ensure_capacity list.length w1 = (.error e, w2)
          ∧ wf = d.drop w2)
      ∨ (∃ d w1 w2 pre item post w3 w4, Dictionary.create_empty w = (.ok d, w1)
          ∧ d.ensure_capacity list.length w1 = (.ok (), w2)
          ∧ list = pre ++ item :: post
          ∧ Dictionary.create_with_entries_loop d pre w2 = (.ok (), w3)
          ∧ d.set item.key item.value w3 = (.error e, w4)
          ∧ wf = d.drop w4) := by
    intro h
    unfold Dictionary.create_with_entries at h
    split at h
    · rename_i e1 w1 hcreate
      exact Or.inl (hcreate.trans h)
    · rename_i d w1 hcreate
      split at h
      · rename_i e1 w2 hreserve
        obtain ⟨he, hw⟩ := Prod.mk.inj h
        have he1 : e1 = e := ErrorOr.error.inj he
        subst he1
        exact Or.inr (Or.inl ⟨d, w1, w2, hcreate, hreserve, hw.symm⟩)
      · rename_i u w2 hreserve
        split at h
        · rename_i e1 w4 hloop
          obtain ⟨he, hw⟩ := Prod.mk.inj h
          have he1 : e1 = e := ErrorOr.error.inj he
          subst he1
          obtain ⟨pre, item, post, w3, hl, hpre, hfail⟩ :=
            Dictionary.create_with_entries_loop_error d list w2 w4 e1 hloop
          exact Or.inr (Or.inr ⟨d, w1, w2, pre, item, post, w3, w4, hcreate, hreserve,
            hl, hpre, hfail, hw.symm⟩)
        · simp at h
  refine ⟨⟨hforward, ?_⟩, ?_, ?_⟩
  · rintro (hcreate | ⟨d, w1, w2, hcreate, hreserve, hw⟩
      | ⟨d, w1, w2, pre, item, post, w3, w4, hcreate, hreserve, hl, hpre, hfail, hw⟩)
    · simp only [Dictionary.create_with_entries, hcreate]
    · simp only [Dictionary.create_with_entries, hcreate, hreserve, hw]
    · have hloop := Dictionary.create_with_entries_loop_stops d pre post item w2 w3 w4 e
        hpre hfail
      rw [← hl] at hloop
      simp only [Dictionary.create_with_entries, hcreate, hreserve, hloop, hw]
  · intro d w1 hcreate h
    have hone := Dictionary.create_empty_ref_count w w1 d hcreate
    have hgone : ∀ w2 : World K V, (w2.deref d.m_storage).ref_count = 1 →
        ((d.drop w2).deref d.m_storage).ref_count = 0
          ∧ ((d.drop w2).deref d.m_storage).map = HashMap.empty := by
      intro w2 h2
      unfold Dictionary.drop
      rw [World.deref_unref_last w2 d.m_storage h2]
      exact ⟨rfl, rfl⟩
    rcases hforward h with (hfail | ⟨d1, w1a, w2, hcreate1, hreserve, hw⟩
      | ⟨d1, w1a, w2, pre, item, post, w3, w4, hcreate1, hreserve, hl, hpre, hfail, hw⟩)
    · rw [hcreate] at hfail
      simp at hfail
    · rw [hcreate] at hcreate1
      simp only [Prod.mk.injEq, ErrorOr.ok.injEq] at hcreate1
      obtain ⟨hd, hw1⟩ := hcreate1
      subst hd hw1 hw
      apply hgone
      have hw2 : w2 = (d.ensure_capacity list.length w1).2 := by rw [hreserve]
      rw [hw2, Dictionary.ref_count_ensure_capacity, hone]
    · rw [hcreate] at hcreate1
      simp only [Prod.mk.injEq, ErrorOr.ok.injEq] at hcreate1
      obtain ⟨hd, hw1⟩ := hcreate1
      subst hd hw1 hw
      apply hgone
      have hw2 : w2 = (d.ensure_capacity list.length w1).2 := by rw [hreserve]
      have hw3 : w3 = (Dictionary.create_with_entries_loop d pre w2).2 := by rw [hpre]
      have hw4 : w4 = (d.set item.key item.value w3).2 := by rw [hfail]
      rw [hw4, Dictionary.ref_count_set, hw3, Dictionary.ref_count_create_with_entries_loop,
        hw2, Dictionary.ref_count_ensure_capacity, hone]
  · intro d l u uf
    refine ⟨⟨Dictionary.create_with_entries_loop_error d l u uf e, ?_⟩, ?_⟩
    · rintro ⟨pre, item, post, u3, hl, hpre, hfail⟩
      rw [hl]
      exact Dictionary.create_with_entries_loop_stops d pre post item u u3 uf e hpre hfail
    · intro pre item post u3 _ hpre hfail k
      rw [Dictionary.get_of_set_error d item.key k item.value u3 uf e hfail]
      exact (Dictionary.create_with_entries_loop_ok d pre u u3 hpre).1 k

/-- C6, at a concrete input.  With an allocator that grants only the first
request, `create_empty` succeeds and the reservation fails: `create_with_entries`
returns that error and the storage it had created is gone.  On a dictionary
without capacity and with an allocator that grants one growth only, the loop sets
(1, 10) and (1, 11), the `set` of (2, 12) fails, and the loop ends with that error:
`get(1)` is 11 and key 2 has not been inserted. -/
theorem create_with_entries_fails_at_first_failing_step_witness :
    (Dictionary.create_with_entries Example.entries Example.w_tight
        = (.error .ENOMEM, Example.w_failed)
      ∧ (Example.w_failed.deref Example.d0.m_storage).ref_count = 0
      ∧ (Example.w_failed.deref Example.d0.m_storage).map = HashMap.empty)
    ∧ (Example.d0.create_with_entries_loop [⟨1, 10⟩, ⟨1, 11⟩] Example.w_reserve).1 = .ok ()
    ∧ (Example.d0.set 2 12
        (Example.d0.create_with_entries_loop [⟨1, 10⟩, ⟨1, 11⟩] Example.w_reserve).2).1
        = .error .ENOMEM
    ∧ Example.d0.create_with_entries_loop Example.entries Example.w_reserve
        = (.error .ENOMEM, Example.w_stopped)
    ∧ Example.d0.get 1 Example.w_stopped = some 11
    ∧ Example.d0.get 2 Example.w_stopped = none
    ∧ Example.d0.size Example.w_stopped = 1 :=
  ⟨⟨(create_with_entries_fails_at_first_failing_step Example.entries Example.w_tight
        Example.w_failed .ENOMEM).1.mpr
        (Or.inr (Or.inl ⟨Example.d0, (Dictionary.create_empty Example.w_tight).2,
          (Example.d0.ensure_capacity 3 (Dictionary.create_empty Example.w_tight).2).2,
          by rfl, by rfl, by rfl⟩)),
      (create_with_entries_fails_at_first_failing_step Example.entries Example.w_tight
        Example.w_failed .ENOMEM).2.1 Example.d0 (Dictionary.create_empty Example.w_tight).2
        (by rfl) (by rfl)⟩,
    by decide, by decide,
    ((create_with_entries_fails_at_first_failing_step Example.entries Example.w_tight
        Example.w_failed .ENOMEM).2.2 Example.d0 Example.entries Example.w_reserve
        Example.w_stopped).1.mpr
      ⟨[⟨1, 10⟩, ⟨1, 11⟩], ⟨2, 12⟩, [],
        (Example.d0.create_with_entries_loop [⟨1, 10⟩, ⟨1, 11⟩] Example.w_reserve).2,
        by rfl, by rfl, by rfl⟩,
    ((create_with_entries_fails_at_first_failing_step Example.entries Example.w_tight
        Example.w_failed .ENOMEM).2.2 Example.d0 Example.entries Example.w_reserve
        Example.w_stopped).2 [⟨1, 10⟩, ⟨1, 11⟩] ⟨2, 12⟩ []
        (Example.d0.create_with_entries_loop [⟨1, 10⟩, ⟨1, 11⟩] Example.w_reserve).2
        (by rfl) (by rfl) (by rfl) 1,
    ((create_with_entries_fails_at_first_failing_step Example.entries Example.w_tight
        Example.w_failed .ENOMEM).2.2 Example.d0 Example.entries Example.w_reserve
        Example.w_stopped).2 [⟨1, 10⟩, ⟨1, 11⟩] ⟨2, 12⟩ []
        (Example.d0.create_with_entries_loop [⟨1, 10⟩, ⟨1, 11⟩] Example.w_reserve).2
        (by rfl) (by rfl) (by rfl) 2,
    by decide⟩

/-- C7 (content of `keys()`): if `d.keys()` succeeds on a dictionary whose map
has unique keys, the returned sequence has length `d.size()`, contains no key
twice, contains a key `k` exactly when `d.contains(k)`, and lists the keys in the
order in which an iterator obtained from `d.iterator()` yields them, be it
obtained in the world `keys()` was called in or in the one it returned. -/
theorem keys_content (d : Dictionary K V) (w w1 : World K V) (arr : Array K)
    (hu : (w.deref d.m_storage).map.unique_keys)
    (h : d.keys w = some (.ok arr, w1)) :
    arr.size = d.size w
    ∧ arr.items.Nodup
    ∧ (∀ k, k ∈ arr.items ↔ d.contains k w = true)
    ∧ (∃ rs it1, DictionaryIterator.next_n (d.iterator w).2 (d.size w + 1) (d.iterator w).1
          = some (rs, it1)
        ∧ rs.map (Option.map Prod.fst) = arr.items.map some ++ [none])
    ∧ (∃ rs it1, DictionaryIterator.next_n (d.iterator w1).2 (d.size w1 + 1) (d.iterator w1).1
          = some (rs, it1)
        ∧ rs.map (Option.map Prod.fst) = arr.items.map some ++ [none]) := by
  obtain ⟨hitems, hsame⟩ := Dictionary.keys_ok d w w1 arr h
  have horder : ∀ u : World K V, (u.deref d.m_storage).map = (w.deref d.m_storage).map →
      ∃ rs it1, DictionaryIterator.next_n (d.iterator u).2 (d.size u + 1) (d.iterator u).1
          = some (rs, it1)
        ∧ rs.map (Option.map Prod.fst) = arr.items.map some ++ [none] := by
    intro u hmap
    refine ⟨_, _, Dictionary.next_n_iterator d u, ?_⟩
    rw [hmap, hitems]
    simp [HashMap.key_list, Function.comp_def]
  refine ⟨?_, ?_, ?_, horder w rfl, horder w1 (by rw [hsame])⟩
  · simp [Array.size, hitems, HashMap.key_list, Dictionary.size, HashMap.size]
  · rw [hitems]
    exact hu
  · intro k
    rw [hitems]
    exact HashMap.mem_key_list_iff_contains _ k

/-- C7, at a concrete input: on the dictionary built from the entries (1, 10),
(1, 11), (2, 12), `keys()` succeeds with the sequence 1, 2, which has the size of
the dictionary and no key twice. -/
theorem keys_content_witness :
    ((Example.w_batch.deref Example.d0.m_storage).map.unique_keys
      ∧ Example.d0.keys Example.w_batch = some (.ok Example.keys_batch, Example.w_keys))
    ∧ Example.keys_batch.size = Example.d0.size Example.w_batch
    ∧ Example.keys_batch.items.Nodup :=
  ⟨⟨by unfold HashMap.unique_keys; decide, by rfl⟩,
    (keys_content Example.d0 Example.w_batch Example.w_keys Example.keys_batch
      (by unfold HashMap.unique_keys; decide) (by rfl)).1,
    (keys_content Example.d0 Example.w_batch Example.w_keys Example.keys_batch
      (by unfold HashMap.unique_keys; decide) (by rfl)).2.1⟩

/-- C8 (iterator completeness): let the map of `d` have unique keys, let an
iterator be obtained from `d.iterator()`, and let the world stay as it is during
the iteration, with `n = d.size()`.  Then the first `n` calls of `next()` return
entries and call `n + 1` returns empty; the entries returned have pairwise
distinct keys, each is a pair `(k, v)` with `d.get(k) = v`, and every key present
in `d` is among them. -/
theorem iterator_completeness (d : Dictionary K V) (w : World K V)
    (hu : (w.deref d.m_storage).map.unique_keys) :
    ∃ entries : List (K × V),
      entries.length = d.size (d.iterator w).2
      ∧ DictionaryIterator.next_n (d.iterator w).2 (d.size (d.iterator w).2 + 1)
          (d.iterator w).1
          = some (entries.map some ++ [none],
              { m_storage := d.m_storage, m_iterator := none })
      ∧ (entries.map Prod.fst).Nodup
      ∧ (∀ e ∈ entries, d.get e.1 (d.iterator w).2 = some e.2)
      ∧ (∀ k, d.contains k (d.iterator w).2 = true → k ∈ entries.map Prod.fst) := by
  have hmap : ((d.iterator w).2.deref d.m_storage).map = (w.deref d.m_storage).map :=
    World.map_deref_ref w d.m_storage d.m_storage
  have hsize : d.size (d.iterator w).2 = d.size w := by
    unfold Dictionary.size
    rw [hmap]
  refine ⟨(w.deref d.m_storage).map.buckets, ?_, ?_, hu, ?_, ?_⟩
  · rw [hsize]
    rfl
  · rw [hsize]
    exact Dictionary.next_n_iterator d w
  · intro e he
    unfold Dictionary.get
    rw [hmap]
    exact HashMap.get_of_mem_buckets _ e hu he
  · intro k hk
    unfold Dictionary.contains at hk
    rw [hmap] at hk
    exact (HashMap.mem_key_list_iff_contains _ k).mpr hk

/-- C8, at a concrete input: on the dictionary built from the entries (1, 10),
(1, 11), (2, 12), the calls of `next()` return (1, 11), (2, 12) and then empty. -/
theorem iterator_completeness_witness :
    (Example.w_batch.deref Example.d0.m_storage).map.unique_keys
    ∧ ∃ entries : List (Nat × Nat),
      entries.length = Example.d0.size (Example.d0.iterator Example.w_batch).2
      ∧ DictionaryIterator.next_n (Example.d0.iterator Example.w_batch).2
          (Example.d0.size (Example.d0.iterator Example.w_batch).2 + 1)
          (Example.d0.iterator Example.w_batch).1
          = some (entries.map some ++ [none], Example.it_empty)
      ∧ (entries.map Prod.fst).Nodup
      ∧ (∀ e ∈ entries, Example.d0.get e.1 (Example.d0.iterator Example.w_batch).2 = some e.2)
      ∧ (∀ k, Example.d0.contains k (Example.d0.iterator Example.w_batch).2 = true →
          k ∈ entries.map Prod.fst) :=
  ⟨by unfold HashMap.unique_keys; decide,
    iterator_completeness Example.d0 Example.w_batch
      (by unfold HashMap.unique_keys; decide)⟩

/-- C9 (exhausted iterator): once a call of `next()` has returned empty, every
later call on the iterator it left returns empty as well and leaves the iterator
as it is, in whatever world each of these calls is made. -/
theorem exhausted_iterator_stays_exhausted (it it1 : DictionaryIterator K V)
    (w : World K V) (h : it.next w = some (none, it1)) (ws : List (World K V)) :
    (∀ w2 : World K V, it1.next w2 = some (none, it1))
    ∧ DictionaryIterator.next_each ws it1 = some (ws.map (fun _ => none), it1) := by
  have hend : it1.m_iterator = none := by
    unfold DictionaryIterator.next at h
    split at h
    · rename_i hcur
      simp only [Option.some.injEq, Prod.mk.injEq, true_and] at h
      rw [← h]
      exact hcur
    · split at h
      · simp at h
      · simp at h
  have hnext : ∀ w2 : World K V, it1.next w2 = some (none, it1) :=
    fun w2 => DictionaryIterator.next_at_end it1 w2 hend
  refine ⟨hnext, ?_⟩
  induction ws with
  | nil => rfl
  | cons w2 rest ih =>
    rw [DictionaryIterator.next_each, hnext w2]
    simp only
    rw [ih]
    rfl

/-- C9, at a concrete input: the iterator of an empty dictionary returns empty at
once, and keeps returning empty in later worlds, also in one where the storage it
points at holds entries. -/
theorem exhausted_iterator_stays_exhausted_witness :
    (Example.d0.iterator Example.w1).1.next (Example.d0.iterator Example.w1).2
        = some (none, Example.it_empty)
    ∧ (∀ w2 : World Nat Nat, Example.it_empty.next w2 = some (none, Example.it_empty))
    ∧ DictionaryIterator.next_each [Example.w1, Example.w_batch] Example.it_empty
        = some ([none, none], Example.it_empty) :=
  ⟨by rfl,
    exhausted_iterator_stays_exhausted (Example.d0.iterator Example.w1).1 Example.it_empty
      (Example.d0.iterator Example.w1).2 (by rfl) [Example.w1, Example.w_batch]⟩

/-- C10 (idempotent clear): after `d.clear()`, `d.size()` is 0 and `d.is_empty()`
is true, on every dictionary and so on an empty one; and a second `d.clear()`
right after the first leaves the world exactly as the first left it. -/
theorem clear_idempotent (d : Dictionary K V) (w : World K V) :
    d.size (d.clear w) = 0
    ∧ d.is_empty (d.clear w) = true
    ∧ d.clear (d.clear w) = d.clear w := by
  refine ⟨?_, ?_, ?_⟩
  · simp [Dictionary.size, Dictionary.clear, World.deref_put_map_same, HashMap.clear,
      HashMap.size, HashMap.empty]
  · simp [Dictionary.is_empty, Dictionary.clear, World.deref_put_map_same, HashMap.clear,
      HashMap.is_empty, HashMap.size, HashMap.empty]
  · unfold Dictionary.clear World.put_map World.store World.deref
    simp only [if_true, HashMap.clear]
    congr 1
    funext q
    by_cases hq : q = d.m_storage
    · simp [hq]
    · simp [hq]

/-- C11 (aliasing of every mutation): let `a` and `b` reference the same store.
After a `set`, `remove`, `clear` or `ensure_capacity` through `a`, successful or
not, `size()`, `is_empty()`, `contains(k)` and `get(k)` return through `b` what they
return through `a`, for every key `k`; after `a.clear()`, `b.is_empty()` is true, and
after `a.remove(k)` has returned true, `b.contains(k)` is false. -/
theorem aliasing_of_every_mutation (a b : Dictionary K V)
    (hsame : b.m_storage = a.m_storage)
    (m : Dictionary.Mutation K V) (w : World K V) (k : K) :
    (b.size (a.mutate m w) = a.size (a.mutate m w)
      ∧ b.is_empty (a.mutate m w) = a.is_empty (a.mutate m w)
      ∧ b.contains k (a.mutate m w) = a.contains k (a.mutate m w)
      ∧ b.get k (a.mutate m w) = a.get k (a.mutate m w))
    ∧ b.is_empty (a.clear w) = true
    ∧ ((a.remove k w).1 = true → b.contains k (a.remove k w).2 = false) := by
  refine ⟨?_, ?_, ?_⟩
  · simp only [Dictionary.size, Dictionary.is_empty, Dictionary.contains, Dictionary.get,
      hsame, and_self]
  · simp only [Dictionary.is_empty, hsame, Dictionary.clear, World.deref_put_map_same]
    rfl
  · intro _
    simp only [Dictionary.contains, hsame, Dictionary.remove, World.deref_put_map_same]
    exact HashMap.contains_remove_self _ k

/-- C11, at a concrete input: the handle `d0` of the dictionary with keys 1 and 2
is copied; after key 1 has been removed through `d0`, the copy reports size 1 and
no key 1, as `d0` does. -/
theorem aliasing_of_every_mutation_witness :
    (Example.d0.copy Example.w_batch).1.m_storage = Example.d0.m_storage
    ∧ ((Example.d0.copy Example.w_batch).1.size (Example.d0.mutate (.remove 1) Example.w_shared)
          = Example.d0.size (Example.d0.mutate (.remove 1) Example.w_shared)
      ∧ (Example.d0.copy Example.w_batch).1.is_empty
            (Example.d0.mutate (.remove 1) Example.w_shared)
          = Example.d0.is_empty (Example.d0.mutate (.remove 1) Example.w_shared)
      ∧ (Example.d0.copy Example.w_batch).1.contains 1
            (Example.d0.mutate (.remove 1) Example.w_shared)
          = Example.d0.contains 1 (Example.d0.mutate (.remove 1) Example.w_shared)
      ∧ (Example.d0.copy Example.w_batch).1.get 1
            (Example.d0.mutate (.remove 1) Example.w_shared)
          = Example.d0.get 1 (Example.d0.mutate (.remove 1) Example.w_shared))
    ∧ (Example.d0.copy Example.w_batch).1.is_empty (Example.d0.clear Example.w_shared) = true
    ∧ ((Example.d0.remove 1 Example.w_shared).1 = true →
        (Example.d0.copy Example.w_batch).1.contains 1
          (Example.d0.remove 1 Example.w_shared).2 = false) :=
  ⟨rfl, aliasing_of_every_mutation Example.d0 (Example.d0.copy Example.w_batch).1 rfl
    (.remove 1) Example.w_shared 1⟩

/-- C12 (an absent key is a value, not an error): `d.get(k)` is non-empty exactly
when `d.contains(k)` is true, and for a key that is not present `d.get(k)` returns
the empty optional. -/
theorem get_nonempty_iff_contains (d : Dictionary K V) (w : World K V) (k : K) :
    ((d.get k w).isSome = true ↔ d.contains k w = true)
    ∧ (d.contains k w = false → d.get k w = none) := by
  constructor
  · unfold Dictionary.get Dictionary.contains
    rw [HashMap.contains_iff_get_isSome]
  · intro h
    exact HashMap.get_eq_none_of_not_contains _ k h

/-- C12, at a concrete input: in the dictionary with keys 1 and 2, `get(1)` is
non-empty and `contains(1)` true, and `get(3)` is empty for the absent key 3. -/
theorem get_nonempty_iff_contains_witness :
    ((Example.d0.get 1 Example.w_batch).isSome = true
      ∧ Example.d0.contains 1 Example.w_batch = true)
    ∧ (Example.d0.contains 3 Example.w_batch = false
      ∧ Example.d0.get 3 Example.w_batch = none) :=
  ⟨⟨(get_nonempty_iff_contains Example.d0 Example.w_batch 1).1.mpr (by decide), by decide⟩,
    by decide, (get_nonempty_iff_contains Example.d0 Example.w_batch 3).2 (by decide)⟩

/-- C13 (unchecked indexing): for a key with `d.contains(k)` true, `d[k]` does not
take its fatal branch and returns the value `v` that `d.get(k)` returns; for a key
with `d.contains(k)` false, `d[k]` takes the fatal branch. -/
theorem index_returns_value_or_is_fatal (d : Dictionary K V) (w : World K V) (k : K) :
    (d.contains k w = true → ∃ v, d.index k w = some v ∧ d.get k w = some v)
    ∧ (d.contains k w = false → d.index k w = none) := by
  constructor
  · intro h
    unfold Dictionary.contains at h
    rw [HashMap.contains_iff_get_isSome] at h
    obtain ⟨v, hv⟩ := Option.isSome_iff_exists.mp h
    refine ⟨v, ?_, hv⟩
    unfold Dictionary.index
    rw [hv]
  · intro h
    have hnone := HashMap.get_eq_none_of_not_contains _ k h
    unfold Dictionary.index
    rw [hnone]

/-- C13, at a concrete input: in the dictionary with keys 1 and 2, `d[1]` returns
11, the value `get(1)` returns, and `d[3]` takes the fatal branch. -/
theorem index_returns_value_or_is_fatal_witness :
    (Example.d0.contains 1 Example.w_batch = true
      ∧ Example.d0.index 1 Example.w_batch = some 11
      ∧ Example.d0.get 1 Example.w_batch = some 11)
    ∧ (Example.d0.contains 3 Example.w_batch = false
      ∧ Example.d0.index 3 Example.w_batch = none) :=
  ⟨⟨by decide, by decide, by decide⟩, by decide,
    (index_returns_value_or_is_fatal Example.d0 Example.w_batch 3).2 (by decide)⟩

/-- C14 (`keys()` fails only on the reservation): `d.keys()` returns an error
exactly when the reservation of `d.size()` elements for the result sequence fails.
When that reservation succeeds, `keys()` returns a sequence of `d.size()` keys: no
`push` fails, so the `MUST` never aborts, and no `push` asks the allocator, which
is left as the reservation left it. -/
theorem keys_fails_only_on_reservation (d : Dictionary K V) (w : World K V) :
    ((∃ w1, d.keys w = some (.error .ENOMEM, w1))
      ↔ ((Array.empty : Array K).ensure_capacity (d.size w) w.allocator).1 = .error .ENOMEM)
    ∧ (((Array.empty : Array K).ensure_capacity (d.size w) w.allocator).1 = .ok () →
        ∃ arr : Array K,
          d.keys w = some (.ok arr, { w with
            allocator := ((Array.empty : Array K).ensure_capacity (d.size w) w.allocator).2.2 })
          ∧ arr.size = d.size w) := by
  by_cases hg : w.allocator.granted = true
  · have hkeys := Dictionary.keys_of_granted d w hg
    have hres : (Array.empty : Array K).ensure_capacity (d.size w) w.allocator
        = (.ok (), { (Array.empty : Array K) with
            capacity := max (Array.empty : Array K).capacity (d.size w) },
            w.allocator.advance) := by
      unfold Array.ensure_capacity
      rw [if_pos hg]
    constructor
    · rw [hkeys, hres]
      simp
    · intro _
      rw [hres]
      refine ⟨_, hkeys, ?_⟩
      simp [Array.size, HashMap.key_list, Dictionary.size, HashMap.size]
  · have hg1 : w.allocator.granted = false := by simpa using hg
    have hkeys := Dictionary.keys_of_refused d w hg1
    have hres : (Array.empty : Array K).ensure_capacity (d.size w) w.allocator
        = (.error .ENOMEM, (Array.empty : Array K), w.allocator.advance) := by
      unfold Array.ensure_capacity
      rw [if_neg hg]
    constructor
    · rw [hkeys, hres]
      simp
    · intro hok
      rw [hres] at hok
      simp at hok

/-- C14, at a concrete input: in `w_tight` after `create_empty()` the allocator
refuses every further request, and `keys()` returns the error; in `w_batch` the
reservation is granted and `keys()` returns the two keys. -/
theorem keys_fails_only_on_reservation_witness :
    (∃ w1, Example.d0.keys (Dictionary.create_empty Example.w_tight).2
        = some (.error .ENOMEM, w1))
    ∧ ∃ arr : Array Nat,
        Example.d0.keys Example.w_batch = some (.ok arr, { Example.w_batch with
          allocator := ((Array.empty : Array Nat).ensure_capacity
            (Example.d0.size Example.w_batch) Example.w_batch.allocator).2.2 })
        ∧ arr.size = Example.d0.size Example.w_batch :=
  ⟨(keys_fails_only_on_reservation Example.d0
      (Dictionary.create_empty Example.w_tight).2).1.mpr (by decide),
    (keys_fails_only_on_reservation Example.d0 Example.w_batch).2 (by decide)⟩

/-- C15 (capacity reservation), under the model of the map in which an insertion
asks the allocator only when the map must grow beyond its capacity: after
`d.ensure_capacity(n)` has succeeded on a dictionary whose map has unique keys,
every `set` of a sequence of `set` calls succeeds when the keys already in the
dictionary and the keys of these calls are together at most `n` distinct keys, so
that the dictionary never has to hold more than `n` entries.  As a consequence, once `create_empty` and
`ensure_capacity(list.size())` have succeeded in `create_with_entries(list)`, no
`set` of it fails and it returns the dictionary. -/
theorem capacity_reservation (d : Dictionary K V) (w w1 : World K V) (n : Nat)
    (hu : (w.deref d.m_storage).map.unique_keys)
    (hres : d.ensure_capacity n w = (.ok (), w1))
    (l : List (Dictionary.Entry K V))
    (hcount : ((w.deref d.m_storage).map.key_list ++ l.map (fun e => e.key)).toFinset.card
      ≤ n) :
    (∀ r ∈ (d.set_each l w1).1, r = .ok ())
    ∧ (∀ (list : List (Dictionary.Entry K V)) (u u1 u2 : World K V) (c : Dictionary K V),
        Dictionary.create_empty u = (.ok c, u1) →
        c.ensure_capacity list.length u1 = (.ok (), u2) →
        (∀ r ∈ (c.set_each list u2).1, r = .ok ())
          ∧ Dictionary.create_with_entries list u = (.ok c, (c.set_each list u2).2)) := by
  refine ⟨Dictionary.set_each_after_ensure_capacity d w w1 n hu hres l hcount, ?_⟩
  intro list u u1 u2 c hcreate hreserve
  obtain ⟨-, -, hempty, -⟩ := Dictionary.create_empty_ok u u1 c hcreate
  have hall : ∀ r ∈ (c.set_each list u2).1, r = .ok () := by
    refine Dictionary.set_each_after_ensure_capacity c u1 u2 list.length ?_ hreserve list ?_
    · rw [hempty]
      exact HashMap.unique_keys_empty
    · rw [hempty]
      simp only [HashMap.key_list, HashMap.empty, List.map_nil, List.nil_append]
      exact le_trans (List.toFinset_card_le _) (by simp)
  refine ⟨hall, ?_⟩
  simp only [Dictionary.create_with_entries, hcreate, hreserve,
    Dictionary.create_with_entries_loop_of_set_each c list u2 hall]

/-- C15, at a concrete input: on an empty dictionary, after `ensure_capacity(2)`
has been granted, an allocator that refuses every further request does not make
the three `set` calls of the entries (1, 10), (1, 11), (2, 12) fail. -/
theorem capacity_reservation_witness :
    ((Example.w_reserve.deref Example.d0.m_storage).map.unique_keys
      ∧ Example.d0.ensure_capacity 2 Example.w_reserve = (.ok (), Example.w_reserved)
      ∧ ((Example.w_reserve.deref Example.d0.m_storage).map.key_list
          ++ Example.entries.map (fun e => e.key)).toFinset.card ≤ 2)
    ∧ ∀ r ∈ (Example.d0.set_each Example.entries Example.w_reserved).1, r = .ok () :=
  ⟨⟨by unfold HashMap.unique_keys; decide, by rfl, by decide⟩,
    (capacity_reservation Example.d0 Example.w_reserve Example.w_reserved 2
      (by unfold HashMap.unique_keys; decide) (by rfl) Example.entries (by decide)).1⟩

/-- C17 (empty factory): `create_empty()` fails exactly when the allocation of the
storage fails.  On success the dictionary references a fresh storage object: its
address has not been handed out before, so no handle that exists shares it, and it
has one reference; `size()` is 0, `is_empty()` is true, and `contains(k)` is false
and `get(k)` empty for every key `k`.  The default constructor, when it returns,
returns the same dictionary in the same world. -/
theorem create_empty_fresh_and_empty (w : World K V) :
    ((Dictionary.create_empty w).1 = .error .ENOMEM ↔ w.adopt_new_storage.1 = .error .ENOMEM)
    ∧ (∀ (d : Dictionary K V) (w1 : World K V), Dictionary.create_empty w = (.ok d, w1) →
        (∀ d1 : Dictionary K V, d1.m_storage < w.brk → d1.m_storage ≠ d.m_storage)
        ∧ (w1.deref d.m_storage).ref_count = 1
        ∧ (∀ q, q ≠ d.m_storage → w1.deref q = w.deref q)
        ∧ d.size w1 = 0 ∧ d.is_empty w1 = true
        ∧ (∀ k, d.contains k w1 = false ∧ d.get k w1 = none))
    ∧ (∀ (d : Dictionary K V) (w1 : World K V),
        Dictionary.default_construct w = some (d, w1)
          ↔ Dictionary.create_empty w = (.ok d, w1)) := by
  refine ⟨?_, ?_, ?_⟩
  · unfold Dictionary.create_empty
    split <;> rename_i h <;> simp [h]
  · intro d w1 h
    obtain ⟨haddr, -, hempty, hother⟩ := Dictionary.create_empty_ok w w1 d h
    refine ⟨fun d1 hd1 => by omega, Dictionary.create_empty_ref_count w w1 d h,
      fun q hq => hother q (by rw [← haddr]; exact hq), ?_, ?_, fun k => ⟨?_, ?_⟩⟩
    · simp [Dictionary.size, hempty, HashMap.size, HashMap.empty]
    · simp [Dictionary.is_empty, hempty, HashMap.is_empty, HashMap.size, HashMap.empty]
    · simp [Dictionary.contains, hempty, HashMap.contains, HashMap.empty]
    · simp [Dictionary.get, hempty, HashMap.get, HashMap.empty]
  · intro d w1
    unfold Dictionary.default_construct Dictionary.create_empty
    split <;> rename_i h <;> simp [h]

/-- C17, at a concrete input: in a world whose allocator grants every request,
`create_empty()` returns the handle at address 0 of an empty dictionary, and so
does the default constructor; with an allocator that refuses, it fails. -/
theorem create_empty_fresh_and_empty_witness :
    Dictionary.create_empty Example.w0 = (.ok Example.d0, Example.w1)
    ∧ (Example.d0.size Example.w1 = 0 ∧ Example.d0.is_empty Example.w1 = true)
    ∧ Dictionary.default_construct Example.w0 = some (Example.d0, Example.w1)
    ∧ (Dictionary.create_empty (World.initial (fun _ => false) : World Nat Nat)).1
        = .error .ENOMEM :=
  ⟨by rfl,
    ⟨((create_empty_fresh_and_empty Example.w0).2.1 Example.d0 Example.w1 (by rfl)).2.2.2.1,
      ((create_empty_fresh_and_empty Example.w0).2.1 Example.d0 Example.w1 (by rfl)).2.2.2.2.1⟩,
    ((create_empty_fresh_and_empty Example.w0).2.2 Example.d0 Example.w1).mpr (by rfl),
    (create_empty_fresh_and_empty (World.initial (fun _ => false) : World Nat Nat)).1.mpr
      (by decide)⟩

/-- C19 (effect of `set`): the result of `d.set(k, v)` is the result of the one
call of the map's `set`, so it is an error exactly when that insertion fails, and
the same error; the world it leaves is the one that one call left, without a retry.
When it succeeds, `d.size()` has grown by 1 if `k` was absent and is unchanged if
`k` was present, and `d.get(k)` returns `v`. -/
theorem set_propagates_failure_and_counts (d : Dictionary K V) (w : World K V) (k : K)
    (v : V) :
    (d.set k v w).1 = ((w.deref d.m_storage).map.set k v w.allocator).1
    ∧ (d.set k v w).2 = w.put_map d.m_storage
        ((w.deref d.m_storage).map.set k v w.allocator).2.1
        ((w.deref d.m_storage).map.set k v w.allocator).2.2
    ∧ ((d.set k v w).1 = .ok () →
        d.size (d.set k v w).2 = (if d.contains k w = true then d.size w else d.size w + 1)
        ∧ d.get k (d.set k v w).2 = some v) := by
  refine ⟨Dictionary.set_fst d k v w, Dictionary.set_snd d k v w, ?_⟩
  intro h
  rw [Dictionary.set_fst] at h
  rw [Dictionary.set_snd]
  simp only [Dictionary.size, Dictionary.get, Dictionary.contains, World.deref_put_map_same]
  exact ⟨HashMap.size_set _ k v _ h, HashMap.get_set_self _ k v _ h⟩

/-- C19, at a concrete input: in the dictionary with keys 1 and 2, setting the
present key 1 leaves the size at 2 and setting the absent key 3 makes it 3; on an
empty dictionary without capacity a refused allocation makes `set` fail. -/
theorem set_propagates_failure_and_counts_witness :
    ((Example.d0.set 1 5 Example.w_batch).1 = .ok ()
      ∧ Example.d0.size (Example.d0.set 1 5 Example.w_batch).2 = 2
      ∧ Example.d0.get 1 (Example.d0.set 1 5 Example.w_batch).2 = some 5)
    ∧ ((Example.d0.set 3 5 Example.w_batch).1 = .ok ()
      ∧ Example.d0.size (Example.d0.set 3 5 Example.w_batch).2 = 3)
    ∧ (Example.d0.set 1 5 (Dictionary.create_empty Example.w_tight).2).1 = .error .ENOMEM :=
  ⟨⟨by decide,
      ((set_propagates_failure_and_counts Example.d0 Example.w_batch 1 5).2.2 (by decide)).1,
      ((set_propagates_failure_and_counts Example.d0 Example.w_batch 1 5).2.2 (by decide)).2⟩,
    ⟨by decide,
      ((set_propagates_failure_and_counts Example.d0 Example.w_batch 3 5).2.2 (by decide)).1⟩,
    by decide⟩

/-- C20 (`ensure_capacity` changes no content): whether `d.ensure_capacity(n)`
succeeds or fails, `size()`, `is_empty()`, `contains(k)` and `get(k)` are after the
call what they were before, for every key `k`, and a `keys()` that succeeds after
the call returns the keys a `keys()` that succeeds before it returns. -/
theorem ensure_capacity_changes_no_content (d : Dictionary K V) (w : World K V) (n : Nat)
    (k : K) :
    d.size (d.ensure_capacity n w).2 = d.size w
    ∧ d.is_empty (d.ensure_capacity n w).2 = d.is_empty w
    ∧ d.contains k (d.ensure_capacity n w).2 = d.contains k w
    ∧ d.get k (d.ensure_capacity n w).2 = d.get k w
    ∧ (∀ (arr arr1 : Array K) (w2 w3 : World K V),
        d.keys w = some (.ok arr, w2) →
        d.keys (d.ensure_capacity n w).2 = some (.ok arr1, w3) →
        arr1.items = arr.items ∧ ∀ x, x ∈ arr1.items ↔ x ∈ arr.items) := by
  have hmap : ((d.ensure_capacity n w).2.deref d.m_storage).map
      = ((w.deref d.m_storage).map.ensure_capacity n w.allocator).2.1 := by
    rw [Dictionary.ensure_capacity_snd, World.deref_put_map_same]
  obtain ⟨hsize, hempty, hcontains, hget, hkeys⟩ :=
    HashMap.queries_of_buckets_eq _ _
      (HashMap.buckets_ensure_capacity (w.deref d.m_storage).map n w.allocator) k
  refine ⟨?_, ?_, ?_, ?_, ?_⟩
  · unfold Dictionary.size
    rw [hmap, hsize]
  · unfold Dictionary.is_empty
    rw [hmap, hempty]
  · unfold Dictionary.contains
    rw [hmap, hcontains]
  · unfold Dictionary.get
    rw [hmap, hget]
  · intro arr arr1 w2 w3 hbefore hafter
    have h1 := (Dictionary.keys_ok d w w2 arr hbefore).1
    have h2 := (Dictionary.keys_ok d _ w3 arr1 hafter).1
    rw [hmap, hkeys] at h2
    have heq : arr1.items = arr.items := by rw [h1, h2]
    exact ⟨heq, fun x => by rw [heq]⟩

/-- C18 (the iterator owns its store): the iterator `d.iterator()` returns
references the store of `d` and has taken a reference of its own on it.  When
handles on that store are then destroyed that together hold at most the references
that existed before the iterator was made (`d` and every other handle), the store
still exists with its map as it was, and any number of calls of `next()`, from any
state of the iterator, return what they return when the handles are kept.  When
these handles held all the earlier references, destroying the iterator as well
destroys the store: it is the iterator that kept it. -/
theorem iterator_owns_its_store (d : Dictionary K V) (w : World K V)
    (hs : List (Dictionary K V))
    (hall : ∀ h ∈ hs, h.m_storage = d.m_storage)
    (hlen : hs.length ≤ (w.deref d.m_storage).ref_count) :
    (d.iterator w).1.m_storage = d.m_storage
    ∧ ((d.iterator w).2.deref d.m_storage).ref_count = (w.deref d.m_storage).ref_count + 1
    ∧ 0 < ((Dictionary.drop_all hs (d.iterator w).2).deref d.m_storage).ref_count
    ∧ ((Dictionary.drop_all hs (d.iterator w).2).deref d.m_storage).map
        = (w.deref d.m_storage).map
    ∧ (∀ (n : Nat) (it : DictionaryIterator K V), it.m_storage = d.m_storage →
        DictionaryIterator.next_n (Dictionary.drop_all hs (d.iterator w).2) n it
          = DictionaryIterator.next_n (d.iterator w).2 n it)
    ∧ (hs.length = (w.deref d.m_storage).ref_count →
        ((d.iterator w).1.drop (Dictionary.drop_all hs (d.iterator w).2)).deref d.m_storage
          = { ref_count := 0, map := HashMap.empty }) := by
  have hcount : ((d.iterator w).2.deref d.m_storage).ref_count
      = (w.deref d.m_storage).ref_count + 1 := World.ref_count_ref w d.m_storage
  have hmap : ((d.iterator w).2.deref d.m_storage).map = (w.deref d.m_storage).map :=
    World.map_deref_ref w d.m_storage d.m_storage
  obtain ⟨hdmap, hdcount⟩ := Dictionary.drop_all_shared d.m_storage hs (d.iterator w).2 hall
    (by rw [hcount]; omega)
  refine ⟨rfl, hcount, by rw [hdcount, hcount]; omega, by rw [hdmap, hmap], ?_, ?_⟩
  · intro n it hit
    exact DictionaryIterator.next_n_congr _ _ d.m_storage hdmap n it hit
  · intro hfull
    have hone : ((Dictionary.drop_all hs (d.iterator w).2).deref d.m_storage).ref_count = 1 := by
      rw [hdcount, hcount]
      omega
    exact World.deref_unref_last _ d.m_storage hone

/-- C18, at a concrete input: the dictionary with keys 1 and 2 has two handles;
an iterator is made and both handles are destroyed.  The store keeps one
reference, and three calls of `next()` return (1, 11), (2, 12) and empty. -/
theorem iterator_owns_its_store_witness :
    ((∀ h ∈ [Example.d0, Example.d0], h.m_storage = Example.d0.m_storage)
      ∧ [Example.d0, Example.d0].length ≤ (Example.w_shared.deref Example.d0.m_storage).ref_count)
    ∧ ((Dictionary.drop_all [Example.d0, Example.d0]
          (Example.d0.iterator Example.w_shared).2).deref Example.d0.m_storage).ref_count = 1
    ∧ DictionaryIterator.next_n
        (Dictionary.drop_all [Example.d0, Example.d0] (Example.d0.iterator Example.w_shared).2)
        3 (Example.d0.iterator Example.w_shared).1
      = some ([some (1, 11), some (2, 12), none], Example.it_empty)
    ∧ DictionaryIterator.next_n
        (Dictionary.drop_all [Example.d0, Example.d0] (Example.d0.iterator Example.w_shared).2)
        3 (Example.d0.iterator Example.w_shared).1
      = DictionaryIterator.next_n (Example.d0.iterator Example.w_shared).2
        3 (Example.d0.iterator Example.w_shared).1 :=
  ⟨⟨by simp, by decide⟩, by decide, by decide,
    (iterator_owns_its_store Example.d0 Example.w_shared [Example.d0, Example.d0]
      (by simp) (by decide)).2.2.2.2.1 3 (Example.d0.iterator Example.w_shared).1 rfl⟩

/-- C16 (snapshot independence): let `d.keys()` succeed and hand the caller the
sequence `h`.  The call leaves every store as it was, and `h` lists the keys the
map had at the call.  Any later sequence of `set`, `remove`, `clear` and
`ensure_capacity` calls, through any handles, leaves the sequence `h` as it is;
and any later mutation of the sequence `h` leaves `size()`, `contains(k)` and
`get(k)` of `d` as they are, for every key `k`. -/
theorem keys_snapshot_independence (d : Dictionary K V) (s s1 : Memory K V) (h : Nat)
    (hk : Memory.keys d s = some (.ok h, s1)) :
    (∀ q, s1.world.deref q = s.world.deref q)
    ∧ (s1.arrays h).items = (s.world.deref d.m_storage).map.key_list
    ∧ (∀ ms : List (Dictionary K V × Dictionary.Mutation K V),
        (Memory.mutate_all ms s1).arrays h = s1.arrays h)
    ∧ (∀ (f : Array K → Allocator → Array K × Allocator) (k : K),
        d.size (Memory.mutate_array h f s1).world = d.size s1.world
        ∧ d.contains k (Memory.mutate_array h f s1).world = d.contains k s1.world
        ∧ d.get k (Memory.mutate_array h f s1).world = d.get k s1.world) := by
  unfold Memory.keys at hk
  split at hk
  · simp at hk
  · simp at hk
  · rename_i keys w1 hkeys
    simp only [Option.some.injEq, Prod.mk.injEq, ErrorOr.ok.injEq] at hk
    obtain ⟨hh, hs1⟩ := hk
    subst hh hs1
    obtain ⟨hitems, hsame⟩ := Dictionary.keys_ok d s.world w1 keys hkeys
    refine ⟨hsame, ?_, fun ms => rfl, fun f k => ⟨rfl, rfl, rfl⟩⟩
    simp only [if_true]
    exact hitems

/-- C16, at a concrete input: `keys()` on the dictionary with keys 1 and 2 returns
the sequence 1, 2; after key 1 has been removed and the dictionary cleared, the
sequence still is 1, 2, and after 7 has been pushed to the sequence, the
dictionary still has size 2. -/
theorem keys_snapshot_independence_witness :
    Memory.keys Example.d0 Example.s_batch = some (.ok 0, Example.s_keys)
    ∧ ((Memory.mutate_all [(Example.d0, .remove 1), (Example.d0, .clear)]
          Example.s_keys).arrays 0).items = [1, 2]
    ∧ Example.d0.size (Memory.mutate_all [(Example.d0, .remove 1), (Example.d0, .clear)]
          Example.s_keys).world = 0
    ∧ ((Memory.mutate_array 0 (fun arr a => ((arr.push 7 a).2.1, (arr.push 7 a).2.2))
          Example.s_keys).arrays 0).items = [1, 2, 7]
    ∧ Example.d0.size (Memory.mutate_array 0
          (fun arr a => ((arr.push 7 a).2.1, (arr.push 7 a).2.2)) Example.s_keys).world
        = Example.d0.size Example.s_keys.world :=
  ⟨by rfl, by decide, by decide, by decide,
    ((keys_snapshot_independence Example.d0 Example.s_batch Example.s_keys 0 (by rfl)).2.2.2
      (fun arr a => ((arr.push 7 a).2.1, (arr.push 7 a).2.2)) 1).1⟩

/-- C20, at a concrete input: on the dictionary with keys 1 and 2,
`ensure_capacity(5)` leaves the size at 2, and `keys()` returns 1, 2 before the
call and after it. -/
theorem ensure_capacity_changes_no_content_witness :
    Example.d0.size (Example.d0.ensure_capacity 5 Example.w_batch).2
        = Example.d0.size Example.w_batch
    ∧ (Example.d0.keys Example.w_batch = some (.ok Example.keys_batch, Example.w_keys)
      ∧ Example.d0.keys (Example.d0.ensure_capacity 5 Example.w_batch).2
          = some (.ok Example.keys_batch,
              { (Example.d0.ensure_capacity 5 Example.w_batch).2 with
                allocator :=
                  (Example.d0.ensure_capacity 5 Example.w_batch).2.allocator.advance }))
    ∧ Example.keys_batch.items = Example.keys_batch.items :=
  ⟨(ensure_capacity_changes_no_content Example.d0 Example.w_batch 5 1).1,
    ⟨by rfl, by rfl⟩,
    ((ensure_capacity_changes_no_content Example.d0 Example.w_batch 5 1).2.2.2.2
      Example.keys_batch Example.keys_batch Example.w_keys _ (by rfl) (by rfl)).1⟩

end Claims

end JaktInternal
